import Mathlib

/-!
Verification of the image-ingestion pipeline of EdgeLLM (`EdgeLLMPlus/App.tsx`).

The pipeline consists of the pure helpers `detectMimeFromBytes`,
`resizeNearestRGBA`, `writeBmp24`, the resolver `toMediaPath`, and the
orchestrator `ensureBmpForMedia`.  Each is shallowly embedded below:
strings become `List Char`, byte buffers become `List Nat` (each entry a
byte value), and the effectful collaborators (file system, network,
third-party decoders, clock) become an explicit environment record so
that the orchestrator is a pure function of its environment.
-/

set_option maxHeartbeats 1000000

namespace EdgeLLM

/-- Boolean prefix test on `List Char` (model of JS `String.startsWith` and
of the element-wise prefix test used by regex anchors). -/
def isPre : List Char → List Char → Bool
  | a :: as, b :: bs => a == b && isPre as bs
  | [], _ => true
  | _ :: _, [] => false

/-- Mime string returned by `detectMimeFromBytes` for BMP input. -/
def mimeBmp : String := "image/bmp"

/-- Mime string returned by `detectMimeFromBytes` for PNG input. -/
def mimePng : String := "image/png"

/-- Mime string returned by `detectMimeFromBytes` for JPEG input. -/
def mimeJpeg : String := "image/jpeg"

/-- Mime string returned by `detectMimeFromBytes` for WebP input. -/
def mimeWebp : String := "image/webp"

/-- Mime string returned by `detectMimeFromBytes` when no signature matches. -/
def mimeUnknown : String := "application/octet-stream"

/-- Model of `detectMimeFromBytes` (App.tsx lines 276-306): byte-signature
classification of the buffer prefix.  A JS guarded access
`bytes.length >= k && bytes[i] === v` (`i < k`) is rendered as the length
bound together with `bytes.getD i 0 = v`; under the length bound `getD`
equals the JS array read, and no out-of-bounds read occurs. -/
def detectMimeFromBytes (bytes : List Nat) : String :=
  if 2 ≤ bytes.length ∧ bytes.getD 0 0 = 0x42 ∧ bytes.getD 1 0 = 0x4d then
    mimeBmp
  else if 8 ≤ bytes.length ∧ bytes.getD 0 0 = 0x89 ∧ bytes.getD 1 0 = 0x50 ∧
      bytes.getD 2 0 = 0x4e ∧ bytes.getD 3 0 = 0x47 ∧ bytes.getD 4 0 = 0x0d ∧
      bytes.getD 5 0 = 0x0a ∧ bytes.getD 6 0 = 0x1a ∧ bytes.getD 7 0 = 0x0a then
    mimePng
  else if 3 ≤ bytes.length ∧ bytes.getD 0 0 = 0xff ∧ bytes.getD 1 0 = 0xd8 ∧
      bytes.getD 2 0 = 0xff then
    mimeJpeg
  else if 12 ≤ bytes.length ∧ bytes.getD 0 0 = 0x52 ∧ bytes.getD 1 0 = 0x49 ∧
      bytes.getD 2 0 = 0x46 ∧ bytes.getD 3 0 = 0x46 ∧ bytes.getD 8 0 = 0x57 ∧
      bytes.getD 9 0 = 0x45 ∧ bytes.getD 10 0 = 0x42 ∧ bytes.getD 11 0 = 0x50 then
    mimeWebp
  else
    mimeUnknown

/-- Concatenation of the lists `f 0, f 1, ..., f (n-1)` in order; model of a
JS `for` loop over `0..n-1` that appends a block of bytes per iteration. -/
def blocks (f : Nat → List α) : Nat → List α
  | 0 => []
  | n + 1 => blocks f n ++ f n

/-- Little-endian encoding of a 16-bit value (model of `DataView.setUint16`). -/
def u16le (v : Nat) : List Nat := [v % 256, v / 256 % 256]

/-- Little-endian encoding of a 32-bit value (model of `DataView.setUint32`;
`setInt32` is only used with nonnegative values in the encoder, where it
writes the same bytes). -/
def u32le (v : Nat) : List Nat :=
  [v % 256, v / 256 % 256, v / 65536 % 256, v / 16777216 % 256]

/-- Row padding of the 24-bit BMP encoder: `(4 - (width*3 % 4)) % 4`. -/
def bmpRowPad (width : Nat) : Nat := (4 - width * 3 % 4) % 4

/-- Pixel-data size of the 24-bit BMP encoder. -/
def bmpImageSize (width height : Nat) : Nat := (width * 3 + bmpRowPad width) * height

/-- Total file size of the 24-bit BMP encoder: `14 + 40 + imageSize`. -/
def bmpFileSize (width height : Nat) : Nat := 14 + 40 + bmpImageSize width height

/-- The 54 header bytes written by `writeBmp24` (App.tsx lines 344-362):
BITMAPFILEHEADER (`BM`, file size, two reserved u16 = one zero u32, pixel
offset 54) followed by BITMAPINFOHEADER (size 40, width, height, planes 1,
bpp 24, compression 0, image size, 2835 ppm twice, 0 colors, 0 important). -/
def bmpHeader (width height : Nat) : List Nat :=
  [0x42, 0x4d] ++ u32le (bmpFileSize width height) ++ u32le 0 ++ u32le 54 ++
    u32le 40 ++ u32le width ++ u32le height ++ u16le 1 ++ u16le 24 ++ u32le 0 ++
    u32le (bmpImageSize width height) ++ u32le 2835 ++ u32le 2835 ++
    u32le 0 ++ u32le 0

/-- The three bytes `[B, G, R]` emitted by `writeBmp24` for source pixel
`(x, y)`: fully black when the pixel's 4-byte range `si..si+3` extends past
the end of the input buffer (App.tsx lines 370-380). -/
def bmpPixel (rgba : List Nat) (width y x : Nat) : List Nat :=
  if rgba.length ≤ (y * width + x) * 4 + 3 then [0, 0, 0]
  else [rgba.getD ((y * width + x) * 4 + 2) 0, rgba.getD ((y * width + x) * 4 + 1) 0,
    rgba.getD ((y * width + x) * 4) 0]

/-- One stored row of `writeBmp24`: the pixels of image row `y` left to
right in B,G,R order, zero-padded to a multiple of 4 bytes. -/
def bmpRow (rgba : List Nat) (width y : Nat) : List Nat :=
  blocks (fun x => bmpPixel rgba width y x) width ++ List.replicate (bmpRowPad width) 0

/-- Model of `writeBmp24` (App.tsx lines 331-388): 54 header bytes followed
by the rows stored bottom-to-top (`for (let y = height - 1; y >= 0; y--)`,
so iteration `i` emits image row `height - 1 - i`). -/
def writeBmp24 (rgba : List Nat) (width height : Nat) : List Nat :=
  bmpHeader width height ++ blocks (fun i => bmpRow rgba width (height - 1 - i)) height

/-- JS `Math.round` on the (real-valued) blend expression: round half up,
`⌊q + 1/2⌋`.  The blend values are rationals with odd denominator 255, so
they are never exactly half-way and the rounding direction is immaterial;
double-precision evaluation of the blend expression is exact enough never
to cross a rounding boundary, so the rational model is faithful. -/
def jsRound (q : ℚ) : ℤ := ⌊q + 1 / 2⌋

/-- Storing an integer into a `Uint8Array` keeps its value modulo 256. -/
def toByte (z : ℤ) : Nat := (z % 256).toNat

/-- One output channel of the alpha compositor (App.tsx lines 476-480):
`Math.round(src * alpha + 255 * (1 - alpha))` with `alpha = a / 255`,
stored into a byte array. -/
def blendChannel (c a : Nat) : Nat :=
  toByte (jsRound ((c : ℚ) * ((a : ℚ) / 255) + 255 * (1 - (a : ℚ) / 255)))

/-- The compositing loop (App.tsx lines 475-482): every 4-byte RGBA group
is blended onto white channel-wise and its alpha forced to 255.  The loop
is only ever run on buffers whose length is `width*height*4` (guarded at
line 471), hence always a multiple of 4; a ragged tail never occurs. -/
def compositeOnWhite : List Nat → List Nat
  | r :: g :: b :: a :: rest =>
    blendChannel r a :: blendChannel g a :: blendChannel b a :: 255 ::
      compositeOnWhite rest
  | _ => []

/-- Result of `UPNG.decode` + `UPNG.toRGBA8` as observed by the pipeline:
dimensions plus the first frame when one exists (`frames[0]`, `null`
otherwise). -/
structure PngDec where
  width : Nat
  height : Nat
  frame0 : Option (List Nat)
deriving DecidableEq

/-- Result of `JPEG.decode`: dimensions plus the RGBA data. -/
structure JpegDec where
  width : Nat
  height : Nat
  data : List Nat
deriving DecidableEq

/-- The PNG post-decode stage of `ensureBmpForMedia` (App.tsx lines
454-485, repeated verbatim at lines 498-524 for the UNKNOWN branch): take
`frames[0]` as the RGBA buffer, and alpha-composite it onto white exactly
when its length equals `width*height*4`. -/
def pngStage (dec : PngDec) : Nat × Nat × Option (List Nat) :=
  match dec.frame0 with
  | none => (dec.width, dec.height, none)
  | some rgba =>
    if rgba.length = dec.width * dec.height * 4 then
      (dec.width, dec.height, some (compositeOnWhite rgba))
    else (dec.width, dec.height, some rgba)

/-- The resize trigger of `ensureBmpForMedia` (App.tsx line 551):
`width > maxSize || height > maxSize` — exact integer comparisons in JS
(the operands are exact doubles). -/
def needsResize (width height maxSize : Nat) : Bool :=
  maxSize < width || maxSize < height

/-- `2^k` in `ℚ` for an integer exponent (the value of one unit in the last
place); used only to state and prove facts about the binary64 model below,
never inside it. -/
def qpow2 (k : ℤ) : ℚ :=
  if 0 ≤ k then ((2 ^ k.toNat : ℕ) : ℚ) else 1 / ((2 ^ (-k).toNat : ℕ) : ℚ)

/-- Fueled binary logarithm (`⌊log2 n⌋` for `n ≥ 1`); the fuel only serves
structural termination and `nlog2` supplies enough. -/
def log2fuel : Nat → Nat → Nat
  | 0, _ => 0
  | fuel + 1, n => if 2 ≤ n then log2fuel fuel (n / 2) + 1 else 0

/-- `⌊log2 n⌋` for `n ≥ 1` (and 0 at 0). -/
def nlog2 (n : Nat) : Nat := log2fuel n n

/-- A nonnegative IEEE-754 binary64 value, represented exactly as
`m * 2^e`.  The arithmetic of `ensureBmpForMedia`'s resize block runs on
JS doubles; every operation below produces the correctly-rounded
(round-to-nearest, ties-to-even) result on this representation, computing
purely in `ℕ`/`ℤ`.  Only the finite positive normal regime is modelled
(zero divisors would give JS `Infinity`), which the theorems' positivity
hypotheses guarantee. -/
structure F64 where
  m : Nat
  e : Int
deriving DecidableEq

/-- The exact rational value of a represented double. -/
def F64.val (x : F64) : ℚ := (x.m : ℚ) * qpow2 x.e

/-- Round-to-nearest, ties-to-even: round `n + rem/den` (with `rem < den`)
to an integer. -/
def roundHalfEven (n rem den : Nat) : Nat :=
  if den < 2 * rem then n + 1
  else if 2 * rem < den then n
  else if n % 2 = 0 then n else n + 1

/-- Decide `2^k ≤ a / b` by integer comparison. -/
def pow2le (k : Int) (a b : Nat) : Bool :=
  if 0 ≤ k then b * 2 ^ k.toNat ≤ a else b ≤ a * 2 ^ (-k).toNat

/-- The binary exponent `⌊log2 (a/b)⌋` of a positive quotient: the
`nlog2` difference is a ±1 estimate, corrected by one comparison. -/
def divExp (a b : Nat) : Int :=
  let k0 : Int := (nlog2 a : Int) - (nlog2 b : Int)
  if pow2le k0 a b then k0 else k0 - 1

/-- Numerator of the quotient `a / b` scaled onto the 53-bit mantissa grid
`[2^52, 2^53)` determined by its binary exponent: `a * 2^(52-e)` when the
shift is to the left, `a` itself otherwise. -/
def divScaleNum (a b : Nat) : Nat :=
  if 0 ≤ 52 - divExp a b then a * 2 ^ ((52 : ℤ) - divExp a b).toNat else a

/-- Denominator of the scaled quotient: `b` when the shift multiplies the
numerator, `b * 2^(e-52)` when the shift is to the right. -/
def divScaleDen (a b : Nat) : Nat :=
  if 0 ≤ 52 - divExp a b then b else b * 2 ^ (divExp a b - 52).toNat

/-- Correctly-rounded binary64 division `a / b` of two exact nonnegative
integers (JS `maxSize / width`): scale the quotient onto the 53-bit
mantissa grid `[2^52, 2^53)` determined by its exponent and round to
nearest, ties to even. -/
def divF (a b : Nat) : F64 :=
  F64.mk
    (roundHalfEven (divScaleNum a b / divScaleDen a b)
      (divScaleNum a b % divScaleDen a b) (divScaleDen a b))
    (divExp a b - 52)

/-- The right-shift bringing the exact product `w * m` back onto the
53-bit mantissa grid (0 when the product already fits in 53 bits). -/
def mulShift (w : Nat) (x : F64) : Nat := nlog2 (w * x.m) - 52

/-- Correctly-rounded binary64 product of an exact integer and a double
(JS `width * scale`): the exact product `w * m` is shifted back onto the
53-bit mantissa grid and rounded to nearest, ties to even. -/
def mulNatF (w : Nat) (x : F64) : F64 :=
  F64.mk
    (roundHalfEven (w * x.m / 2 ^ mulShift w x) (w * x.m % 2 ^ mulShift w x)
      (2 ^ mulShift w x))
    (x.e + mulShift w x)

/-- Exact `Math.floor` of a represented double. -/
def floorF (x : F64) : Nat :=
  if 0 ≤ x.e then x.m * 2 ^ x.e.toNat else x.m / 2 ^ (-x.e).toNat

/-- Exact value comparison of two represented doubles (for `Math.min`). -/
def leF (x y : F64) : Bool :=
  if x.e ≤ y.e then x.m ≤ y.m * 2 ^ (y.e - x.e).toNat
  else x.m * 2 ^ (x.e - y.e).toNat ≤ y.m

/-- The uniform scale factor (App.tsx line 552):
`Math.min(maxSize / width, maxSize / height)` in binary64 — each division
correctly rounded, then the smaller value. -/
def rScale (width height maxSize : Nat) : F64 :=
  let qx := divF maxSize width
  let qy := divF maxSize height
  if leF qx qy then qx else qy

/-- Destination dimensions (App.tsx lines 553-554):
`Math.max(1, Math.floor(dim * scale))` for each axis, where the product is
a correctly-rounded binary64 multiplication. -/
def resizeDims (width height maxSize : Nat) : Nat × Nat :=
  (Nat.max 1 (floorF (mulNatF width (rScale width height maxSize))),
    Nat.max 1 (floorF (mulNatF height (rScale width height maxSize))))

/-- Body of the nearest-neighbor loop (App.tsx lines 317-325): the 4 bytes
copied for destination pixel `(x, y)`, read at source index
`si = (sy*srcW + sx)*4` with `sy = ⌊y*srcH/dstH⌋`, `sx = ⌊x*srcW/dstW⌋`
(Nat division is the floor; a read past the end of `src` stores 0, as the
JS `undefined` does in a `Uint8Array`). -/
def rzPixel (src : List Nat) (srcW srcH dstW dstH y x : Nat) : List Nat :=
  [src.getD ((y * srcH / dstH * srcW + x * srcW / dstW) * 4) 0,
    src.getD ((y * srcH / dstH * srcW + x * srcW / dstW) * 4 + 1) 0,
    src.getD ((y * srcH / dstH * srcW + x * srcW / dstW) * 4 + 2) 0,
    src.getD ((y * srcH / dstH * srcW + x * srcW / dstW) * 4 + 3) 0]

/-- Model of `resizeNearestRGBA` (App.tsx lines 308-329): for each
destination pixel `(x, y)` (row-major, `y` outer), copy the 4 bytes of
the nearest source pixel. -/
def resizeNearestRGBA (src : List Nat) (srcW srcH dstW dstH : Nat) : List Nat :=
  blocks (fun y => blocks (rzPixel src srcW srcH dstW dstH y) dstW) dstH

/-- The characters of the WebP hint in colon form, `format:webp`
(App.tsx line 423). -/
def hintColon : List Char :=
  ['f', 'o', 'r', 'm', 'a', 't', ':', 'w', 'e', 'b', 'p']

/-- The characters of the WebP hint in equals form, `format=webp`
(App.tsx line 423). -/
def hintEq : List Char :=
  ['f', 'o', 'r', 'm', 'a', 't', '=', 'w', 'e', 'b', 'p']

/-- The replacement text of the regex rewrite, `format:jpeg`
(App.tsx line 424): the colon form regardless of the matched separator. -/
def hintRepl : List Char :=
  ['f', 'o', 'r', 'm', 'a', 't', ':', 'j', 'p', 'e', 'g']

/-- The equals-form JPEG hint `format=jpeg`, which the rewrite never
produces. -/
def hintEqJpeg : List Char :=
  ['f', 'o', 'r', 'm', 'a', 't', '=', 'j', 'p', 'e', 'g']

/-- Model of `uri.includes("format:webp") || uri.includes("format=webp")`
(App.tsx line 423): some position of the string starts with either hint. -/
def containsHint : List Char → Bool
  | [] => false
  | c :: rest => isPre hintColon (c :: rest) || isPre hintEq (c :: rest) ||
      containsHint rest

/-- Fueled scanner for the global regex replace
`uri.replace(/format[:=]webp/g, "format:jpeg")` (App.tsx line 424):
left-to-right scan, each leftmost match of either 11-character hint is
replaced by `format:jpeg` and scanning resumes after the matched input.
The fuel only serves structural termination; `rewriteHint` supplies enough
for the scan to complete. -/
def rewriteHintAux : Nat → List Char → List Char
  | 0, s => s
  | _ + 1, [] => []
  | fuel + 1, c :: rest =>
    if isPre hintColon (c :: rest) || isPre hintEq (c :: rest) then
      hintRepl ++ rewriteHintAux fuel ((c :: rest).drop 11)
    else c :: rewriteHintAux fuel rest

/-- Model of the regex rewrite producing the alternate-rendition URL
(App.tsx line 424). -/
def rewriteHint (s : List Char) : List Char := rewriteHintAux s.length s

/-- Decimal digit characters of a natural number, most significant first
(model of JS template interpolation `${Date.now()}`).  Fueled for
structural termination; `natDigits` supplies enough fuel. -/
def natDigitsAux : Nat → Nat → List Char → List Char
  | 0, _, acc => acc
  | fuel + 1, n, acc =>
    if n < 10 then Char.ofNat (48 + n % 10) :: acc
    else natDigitsAux fuel (n / 10) (Char.ofNat (48 + n % 10) :: acc)

/-- Decimal rendering of a natural number as characters. -/
def natDigits (n : Nat) : List Char := natDigitsAux (n + 1) n []

/-- Value of a digit string, used to invert `natDigits`. -/
def digitsVal (l : List Char) : Nat :=
  l.foldl (fun acc c => acc * 10 + (c.toNat - 48)) 0

/-- The `file://` scheme prefix. -/
def fileScheme : List Char := ['f', 'i', 'l', 'e', ':', '/', '/']

/-- The `http://` prefix. -/
def httpPre : List Char := ['h', 't', 't', 'p', ':', '/', '/']

/-- The `https://` prefix. -/
def httpsPre : List Char := ['h', 't', 't', 'p', 's', ':', '/', '/']

/-- The `content://` prefix of an Android content-provider URI. -/
def contentPre : List Char := ['c', 'o', 'n', 't', 'e', 'n', 't', ':', '/', '/']

/-- Abstract value of `RNFS.CachesDirectoryPath` (a platform-fixed absolute
directory path; its exact characters are irrelevant to every claim). -/
def cachesDir : List Char := ['/', 'c', 'a', 'c', 'h', 'e', 's']

/-- The `/llm_img_` filename prefix used for every cache file
(App.tsx lines 263 and 569). -/
def imgPrefix : List Char := ['/', 'l', 'l', 'm', '_', 'i', 'm', 'g', '_']

/-- The `.bmp` filename suffix. -/
def bmpExt : List Char := ['.', 'b', 'm', 'p']

/-- The fallback extension `jpg` for remote URLs without one
(App.tsx line 262). -/
def jpgExt : List Char := ['j', 'p', 'g']

/-- Model of `uri.replace(/^file:\/\//, "")`: strip one leading `file://`. -/
def stripScheme (s : List Char) : List Char :=
  if isPre fileScheme s then s.drop 7 else s

/-- Model of `uri.startsWith("/")`. -/
def startsWithSlash : List Char → Bool
  | '/' :: _ => true
  | _ => false

/-- Extension extraction of `toMediaPath` (App.tsx lines 260-262): strip
the query and fragment (`split("?")[0].split("#")[0]`), then match
`/\.([a-zA-Z0-9]+)$/` — a nonempty trailing ASCII-alphanumeric run
preceded by a dot; otherwise `jpg`. -/
def extOf (uri : List Char) : List Char :=
  let clean := (uri.takeWhile (fun c => !(c == '?'))).takeWhile (fun c => !(c == '#'))
  let revT := clean.reverse.takeWhile (fun c => c.isAlpha || c.isDigit)
  match clean.reverse.drop revT.length with
  | '.' :: _ => if revT.isEmpty then jpgExt else revT.reverse
  | _ => jpgExt

/-- Cache destination of a downloaded remote file (App.tsx line 263):
`${CachesDirectoryPath}/llm_img_${Date.now()}.${ext}`. -/
def mediaDest (now : Nat) (ext : List Char) : List Char :=
  cachesDir ++ imgPrefix ++ natDigits now ++ ('.' :: ext)

/-- Output path of the BMP writer (App.tsx line 569):
`${CachesDirectoryPath}/llm_img_${Date.now()}.bmp`.  The name depends only
on the observed clock value, not on the input reference. -/
def outPathName (now : Nat) : List Char :=
  cachesDir ++ imgPrefix ++ natDigits now ++ bmpExt

/-- The effectful collaborators of the pipeline, made explicit: whether a
remote download succeeds, what bytes a local path holds (`none` models a
throwing `RNFS.readFile`), the third-party decoders (`none` models a
throw), whether the final `RNFS.writeFile`/`RNFS.stat` pair succeeds, and
the observed `Date.now()` value. -/
structure Env where
  downloadOk : List Char → Bool
  readFile : List Char → Option (List Nat)
  decodePng : List Nat → Option PngDec
  decodeJpeg : List Nat → Option JpegDec
  writeOk : Bool
  now : Nat

/-- Model of `toMediaPath` (App.tsx lines 250-274): empty reference →
`null`; `file://` or absolute path → `file://` + stripped path; `http(s)`
→ download to the cache destination (`null` if the download throws);
anything else (including `content://` URIs) → `null`. -/
def toMediaPath (env : Env) (uri : List Char) : Option (List Char) :=
  if uri.isEmpty then none
  else if isPre fileScheme uri || startsWithSlash uri then
    some (fileScheme ++ stripScheme uri)
  else if isPre httpPre uri || isPre httpsPre uri then
    if env.downloadOk uri then some (fileScheme ++ mediaDest env.now (extOf uri))
    else none
  else none

/-- Observable outcome of one `ensureBmpForMedia` call: the returned value
(`null`, the pass-through path, or the written path) together with the BMP
bytes written in the last case. -/
inductive Outcome where
  | failure : Outcome
  | passthrough : List Char → Outcome
  | written : List Char → List Nat → Outcome
deriving DecidableEq

/-- The path carried by a successful outcome (`none` for the null result). -/
def pathOf : Outcome → Option (List Char)
  | Outcome.failure => none
  | Outcome.passthrough p => some p
  | Outcome.written p _ => some p

/-- The fixed 1×1 opaque white placeholder RGBA buffer (App.tsx line 444). -/
def placeholder : List Nat := [255, 255, 255, 255]

/-- Common tail of `ensureBmpForMedia` (App.tsx lines 541-579): substitute
the 1×1 white placeholder when no RGBA buffer was produced, resize when a
dimension exceeds `maxSize`, encode with `writeBmp24`, and return the
`file://`-prefixed output path (or `null` when the write/stat throws). -/
def finishStage (env : Env) (maxSize w h : Nat) (rgbaOpt : Option (List Nat)) :
    Outcome :=
  let p : Nat × Nat × List Nat :=
    match rgbaOpt with
    | none => (1, 1, placeholder)
    | some r => (w, h, r)
  let q : Nat × Nat × List Nat :=
    if needsResize p.1 p.2.1 maxSize then
      let d := resizeDims p.1 p.2.1 maxSize
      (d.1, d.2, resizeNearestRGBA p.2.2 p.1 p.2.1 d.1 d.2)
    else p
  if env.writeOk then
    Outcome.written (fileScheme ++ outPathName env.now) (writeBmp24 q.2.2 q.1 q.2.1)
  else Outcome.failure

/-- Model of `ensureBmpForMedia` (App.tsx lines 390-585).  `fuel` bounds
the WebP alternate-rendition recursion (App.tsx line 438); `none` means the
bound was hit, `some o` is the call's outcome.  `opts` is `options.maxSize`
(`maxSize ?? 1024` at line 550).  The outer `try/catch` returns `null` on
any throw, so a failing resolve, read, PNG-branch decode, JPEG-branch
decode, or final write yields `Outcome.failure`; the WebP branch and the
UNKNOWN fallback ladder absorb their own failures (inner `try/catch`). -/
def ensureBmp (env : Env) : Nat → Option Nat → List Char → Option Outcome
  | 0, _, _ => none
  | fuel + 1, opts, uri =>
    match toMediaPath env uri with
    | none => some Outcome.failure
    | some localPath =>
      match env.readFile (stripScheme localPath) with
      | none => some Outcome.failure
      | some bytes =>
        let mime := detectMimeFromBytes bytes
        if mime = mimeBmp then some (Outcome.passthrough localPath)
        else
          let maxSize := opts.getD 1024
          if mime = mimeWebp then
            if containsHint uri then
              match toMediaPath env (rewriteHint uri) with
              | some altLocal =>
                match env.readFile (stripScheme altLocal) with
                | some altBytes =>
                  if detectMimeFromBytes altBytes = mimeJpeg ∨
                      detectMimeFromBytes altBytes = mimePng then
                    ensureBmp env fuel opts (rewriteHint uri)
                  else some (finishStage env maxSize 1 1 (some placeholder))
                | none => some (finishStage env maxSize 1 1 (some placeholder))
              | none => some (finishStage env maxSize 1 1 (some placeholder))
            else some (finishStage env maxSize 1 1 (some placeholder))
          else if mime = mimePng then
            match env.decodePng bytes with
            | none => some Outcome.failure
            | some dec =>
              let t := pngStage dec
              some (finishStage env maxSize t.1 t.2.1 t.2.2)
          else if mime = mimeJpeg then
            match env.decodeJpeg bytes with
            | none => some Outcome.failure
            | some dec => some (finishStage env maxSize dec.width dec.height (some dec.data))
          else
            match env.decodePng bytes with
            | some dec =>
              let t := pngStage dec
              some (finishStage env maxSize t.1 t.2.1 t.2.2)
            | none =>
              match env.decodeJpeg bytes with
              | some dec =>
                some (finishStage env maxSize dec.width dec.height (some dec.data))
              | none => some (finishStage env maxSize 1 1 (some placeholder))

/-- All proper suffixes of either WebP hint (shared tail included), used to
trace a partial hint match backwards through the rewriter. -/
def hintSuffixes : List (List Char) :=
  [['o', 'r', 'm', 'a', 't', ':', 'w', 'e', 'b', 'p'],
    ['r', 'm', 'a', 't', ':', 'w', 'e', 'b', 'p'],
    ['m', 'a', 't', ':', 'w', 'e', 'b', 'p'],
    ['a', 't', ':', 'w', 'e', 'b', 'p'],
    ['t', ':', 'w', 'e', 'b', 'p'],
    [':', 'w', 'e', 'b', 'p'],
    ['o', 'r', 'm', 'a', 't', '=', 'w', 'e', 'b', 'p'],
    ['r', 'm', 'a', 't', '=', 'w', 'e', 'b', 'p'],
    ['m', 'a', 't', '=', 'w', 'e', 'b', 'p'],
    ['a', 't', '=', 'w', 'e', 'b', 'p'],
    ['t', '=', 'w', 'e', 'b', 'p'],
    ['=', 'w', 'e', 'b', 'p'],
    ['w', 'e', 'b', 'p'],
    ['e', 'b', 'p'],
    ['b', 'p'],
    ['p'],
    []]

/-- A byte buffer carrying the WEBP signature (`RIFF....WEBP`). -/
def webpSigBytes : List Nat :=
  [0x52, 0x49, 0x46, 0x46, 0, 0, 0, 0, 0x57, 0x45, 0x42, 0x50]

/-- A byte buffer carrying the PNG signature followed by structural junk:
classified PNG, but not decodable. -/
def pngSigJunk : List Nat :=
  [0x89, 0x50, 0x4e, 0x47, 0x0d, 0x0a, 0x1a, 0x0a, 0, 0]

/-- A byte buffer carrying the BMP signature. -/
def bmpSigBytes : List Nat := [0x42, 0x4d, 0, 0]

/-- A byte buffer matching no signature. -/
def unknownBytes : List Nat := [0]

/-- Concrete absolute-path references used in closed runs of the model. -/
def uriW : List Char := ['/', 'w']

def uriP : List Char := ['/', 'p']

def uriA : List Char := ['/', 'a']

def uriB : List Char := ['/', 'b']

/-- A concrete content-provider reference. -/
def contentUri : List Char := contentPre ++ ['x']

/-- Environment whose reads yield a WebP file, with failing decoders and a
succeeding final write, observing `Date.now() = 7`. -/
def envW : Env where
  downloadOk := fun _ => false
  readFile := fun _ => some webpSigBytes
  decodePng := fun _ => none
  decodeJpeg := fun _ => none
  writeOk := true
  now := 7

/-- Environment whose reads yield a PNG-classified but structurally invalid
file (the decoder throws), with a succeeding final write. -/
def envP : Env where
  downloadOk := fun _ => false
  readFile := fun _ => some pngSigJunk
  decodePng := fun _ => none
  decodeJpeg := fun _ => none
  writeOk := true
  now := 7

/-- Environment whose reads yield a BMP file (pass-through). -/
def envBmp : Env where
  downloadOk := fun _ => false
  readFile := fun _ => some bmpSigBytes
  decodePng := fun _ => none
  decodeJpeg := fun _ => none
  writeOk := true
  now := 7

/-- Environment whose reads yield an unclassifiable file with both decoders
failing, observing `Date.now() = 5`: the run writes the placeholder BMP. -/
def env9 : Env where
  downloadOk := fun _ => false
  readFile := fun _ => some unknownBytes
  decodePng := fun _ => none
  decodeJpeg := fun _ => none
  writeOk := true
  now := 5

/-- Environment where every download succeeds (used to show content URIs
fail regardless of the network). -/
def envDl : Env where
  downloadOk := fun _ => true
  readFile := fun _ => none
  decodePng := fun _ => none
  decodeJpeg := fun _ => none
  writeOk := true
  now := 3

end EdgeLLM

namespace EdgeLLM

theorem isPre_cons (a b : Char) (as bs : List Char) :
    isPre (a :: as) (b :: bs) = (a == b && isPre as bs) := rfl

theorem isPre_nil_left (l : List Char) : isPre [] l = true := rfl

theorem isPre_self_append (l r : List Char) : isPre l (l ++ r) = true := by
  induction l with
  | nil => rfl
  | cons a as ih => simp [isPre_cons, ih]

theorem and_true_split {a b : Bool} (h : (a && b) = true) : a = true ∧ b = true := by
  cases a <;> cases b <;> simp_all

theorem hintSuffixes_head : ∀ x : Char, ∀ t' : List Char,
    (x :: t') ∈ hintSuffixes → (x == 'f') = false := by
  have hall : hintSuffixes.all (fun t =>
      match t with
      | [] => true
      | c :: _ => !(c == 'f')) = true := by decide
  intro x t' h
  have hx := List.all_eq_true.mp hall _ h
  simpa using hx

theorem hintSuffixes_tail : ∀ x : Char, ∀ t' : List Char,
    (x :: t') ∈ hintSuffixes → t' ∈ hintSuffixes := by
  have hall : hintSuffixes.all (fun t =>
      match t with
      | [] => true
      | _ :: t' => decide (t' ∈ hintSuffixes)) = true := by decide
  intro x t' h
  have hx := List.all_eq_true.mp hall _ h
  simpa using hx

theorem rewriteHintAux_fuel_irrel : ∀ f1 f2 : Nat, ∀ s : List Char,
    s.length ≤ f1 → s.length ≤ f2 → rewriteHintAux f1 s = rewriteHintAux f2 s := by
  intro f1
  induction f1 with
  | zero =>
    intro f2 s hs1 _
    have : s = [] := List.eq_nil_of_length_eq_zero (Nat.le_zero.mp hs1)
    subst this
    cases f2 <;> rfl
  | succ f ih =>
    intro f2 s hs1 hs2
    match s, f2 with
    | [], 0 => rfl
    | [], g + 1 => rfl
    | c :: rest, g + 1 =>
      simp only [List.length_cons] at hs1 hs2
      show (if isPre hintColon (c :: rest) || isPre hintEq (c :: rest) then
          hintRepl ++ rewriteHintAux f ((c :: rest).drop 11)
        else c :: rewriteHintAux f rest) =
        (if isPre hintColon (c :: rest) || isPre hintEq (c :: rest) then
          hintRepl ++ rewriteHintAux g ((c :: rest).drop 11)
        else c :: rewriteHintAux g rest)
      split
      · rw [ih g ((c :: rest).drop 11) (by simp; omega) (by simp; omega)]
      · rw [ih g rest (by omega) (by omega)]

theorem rewriteHint_match (c : Char) (rest : List Char)
    (h : (isPre hintColon (c :: rest) || isPre hintEq (c :: rest)) = true) :
    rewriteHint (c :: rest) = hintRepl ++ rewriteHint ((c :: rest).drop 11) := by
  unfold rewriteHint
  show (if isPre hintColon (c :: rest) || isPre hintEq (c :: rest) then
      hintRepl ++ rewriteHintAux rest.length ((c :: rest).drop 11)
    else c :: rewriteHintAux rest.length rest) = _
  rw [if_pos h]
  rw [rewriteHintAux_fuel_irrel rest.length ((c :: rest).drop 11).length
    ((c :: rest).drop 11)
    (by rw [List.length_drop]; simp only [List.length_cons]; omega) (le_refl _)]

theorem rewriteHint_nomatch (c : Char) (rest : List Char)
    (h : (isPre hintColon (c :: rest) || isPre hintEq (c :: rest)) = false) :
    rewriteHint (c :: rest) = c :: rewriteHint rest := by
  unfold rewriteHint
  show (if isPre hintColon (c :: rest) || isPre hintEq (c :: rest) then
      hintRepl ++ rewriteHintAux rest.length ((c :: rest).drop 11)
    else c :: rewriteHintAux rest.length rest) = _
  rw [if_neg (by rw [h]; exact Bool.false_ne_true)]

theorem hint_suffix_transfer : ∀ n : Nat, ∀ s : List Char, s.length ≤ n →
    ∀ t, t ∈ hintSuffixes → isPre t (rewriteHint s) = true → isPre t s = true := by
  intro n
  induction n with
  | zero =>
    intro s hs t _ hpre
    have : s = [] := List.eq_nil_of_length_eq_zero (Nat.le_zero.mp hs)
    subst this
    exact hpre
  | succ n ih =>
    intro s hs t ht hpre
    match s with
    | [] => exact hpre
    | c :: rest =>
      simp only [List.length_cons] at hs
      rcases hb : (isPre hintColon (c :: rest) || isPre hintEq (c :: rest)) with _ | _
      · -- no match at the front: one character is copied
        rw [rewriteHint_nomatch c rest hb] at hpre
        match t, ht with
        | [], _ => rfl
        | x :: t', ht =>
          rw [isPre_cons] at hpre
          obtain ⟨h1, h2⟩ := and_true_split hpre
          have h3 := ih rest (by omega) t' (hintSuffixes_tail x t' ht) h2
          rw [isPre_cons, h1, h3]
          rfl
      · -- a hint match at the front is replaced by `format:jpeg`
        rw [rewriteHint_match c rest hb] at hpre
        match t, ht with
        | [], _ => rfl
        | x :: t', ht =>
          exfalso
          have hrepl : hintRepl ++ rewriteHint ((c :: rest).drop 11) =
              'f' :: (['o', 'r', 'm', 'a', 't', ':', 'j', 'p', 'e', 'g'] ++
                rewriteHint ((c :: rest).drop 11)) := rfl
          rw [hrepl, isPre_cons] at hpre
          obtain ⟨h1, _⟩ := and_true_split hpre
          rw [hintSuffixes_head x t' ht] at h1
          exact Bool.false_ne_true h1

theorem containsHint_repl_append (X : List Char) :
    containsHint (hintRepl ++ X) = containsHint X := rfl

theorem noHint_aux : ∀ n : Nat, ∀ s : List Char, s.length ≤ n →
    containsHint (rewriteHint s) = false := by
  intro n
  induction n with
  | zero =>
    intro s hs
    have : s = [] := List.eq_nil_of_length_eq_zero (Nat.le_zero.mp hs)
    subst this
    rfl
  | succ n ih =>
    intro s hs
    match s with
    | [] => rfl
    | c :: rest =>
      simp only [List.length_cons] at hs
      rcases hb : (isPre hintColon (c :: rest) || isPre hintEq (c :: rest)) with _ | _
      · rw [rewriteHint_nomatch c rest hb]
        have hY := ih rest (by omega)
        have hcol : isPre hintColon (c :: rewriteHint rest) = false := by
          rcases hcY : isPre hintColon (c :: rewriteHint rest) with _ | _
          · rfl
          · exfalso
            rw [show isPre hintColon (c :: rewriteHint rest) =
              ('f' == c && isPre ['o', 'r', 'm', 'a', 't', ':', 'w', 'e', 'b', 'p']
                (rewriteHint rest)) from rfl] at hcY
            obtain ⟨h1, h2⟩ := and_true_split hcY
            have h3 := hint_suffix_transfer rest.length rest (le_refl _)
              ['o', 'r', 'm', 'a', 't', ':', 'w', 'e', 'b', 'p'] (by decide) h2
            have : isPre hintColon (c :: rest) = true := by
              rw [show isPre hintColon (c :: rest) =
                ('f' == c && isPre ['o', 'r', 'm', 'a', 't', ':', 'w', 'e', 'b', 'p']
                  rest) from rfl, h1, h3]
              rfl
            rw [Bool.or_eq_false_iff] at hb
            exact Bool.false_ne_true (hb.1.symm.trans this)
        have heq : isPre hintEq (c :: rewriteHint rest) = false := by
          rcases hcY : isPre hintEq (c :: rewriteHint rest) with _ | _
          · rfl
          · exfalso
            rw [show isPre hintEq (c :: rewriteHint rest) =
              ('f' == c && isPre ['o', 'r', 'm', 'a', 't', '=', 'w', 'e', 'b', 'p']
                (rewriteHint rest)) from rfl] at hcY
            obtain ⟨h1, h2⟩ := and_true_split hcY
            have h3 := hint_suffix_transfer rest.length rest (le_refl _)
              ['o', 'r', 'm', 'a', 't', '=', 'w', 'e', 'b', 'p'] (by decide) h2
            have : isPre hintEq (c :: rest) = true := by
              rw [show isPre hintEq (c :: rest) =
                ('f' == c && isPre ['o', 'r', 'm', 'a', 't', '=', 'w', 'e', 'b', 'p']
                  rest) from rfl, h1, h3]
              rfl
            rw [Bool.or_eq_false_iff] at hb
            exact Bool.false_ne_true (hb.2.symm.trans this)
        rw [show containsHint (c :: rewriteHint rest) =
          (isPre hintColon (c :: rewriteHint rest) ||
            isPre hintEq (c :: rewriteHint rest) ||
            containsHint (rewriteHint rest)) from rfl]
        rw [hcol, heq, hY]
        rfl
      · rw [rewriteHint_match c rest hb, containsHint_repl_append]
        exact ih ((c :: rest).drop 11) (by simp; omega)

/-- Every output of the hint rewriter is hint-free: the replacement text
`format:jpeg` can never recreate `format:webp` or `format=webp`. -/
theorem noHint (s : List Char) : containsHint (rewriteHint s) = false :=
  noHint_aux s.length s (le_refl _)

theorem isPre_append_cases : ∀ (pre pat rest : List Char),
    isPre pat (pre ++ rest) = true →
    isPre pat pre = true ∨
      (pre.length < pat.length ∧ isPre (pat.drop pre.length) rest = true) := by
  intro pre
  induction pre with
  | nil =>
    intro pat rest h
    match pat with
    | [] => exact Or.inl rfl
    | a :: pat' =>
      refine Or.inr ⟨by simp, ?_⟩
      simpa using h
  | cons c pre' ih =>
    intro pat rest h
    match pat with
    | [] => exact Or.inl rfl
    | a :: pat' =>
      rw [List.cons_append, isPre_cons] at h
      obtain ⟨h1, h2⟩ := and_true_split h
      rcases ih pat' rest h2 with hl | ⟨hlen, hdrop⟩
      · exact Or.inl (by rw [isPre_cons, h1, hl]; rfl)
      · refine Or.inr ⟨by simp only [List.length_cons]; omega, ?_⟩
        simpa [List.drop_succ_cons] using hdrop

theorem hintDrop_not_isPre (k : Nat) (h1 : 1 ≤ k) (h2 : k < 11) (post : List Char) :
    isPre (hintColon.drop k) (hintEq ++ post) = false ∧
      isPre (hintEq.drop k) (hintEq ++ post) = false := by
  interval_cases k <;> exact ⟨rfl, rfl⟩

theorem rewriteHint_replaces : ∀ pre post : List Char, containsHint pre = false →
    rewriteHint (pre ++ (hintEq ++ post)) = pre ++ (hintRepl ++ rewriteHint post) := by
  intro pre
  induction pre with
  | nil =>
    intro post _
    simp only [List.nil_append]
    have hform : hintEq ++ post =
        'f' :: (['o', 'r', 'm', 'a', 't', '=', 'w', 'e', 'b', 'p'] ++ post) := rfl
    rw [hform, rewriteHint_match 'f'
      (['o', 'r', 'm', 'a', 't', '=', 'w', 'e', 'b', 'p'] ++ post)
      (by rw [← hform]
          rw [show isPre hintEq (hintEq ++ post) = true from isPre_self_append _ _]
          rw [Bool.or_true])]
    rw [show ('f' :: (['o', 'r', 'm', 'a', 't', '=', 'w', 'e', 'b', 'p'] ++ post)).drop 11
      = post from rfl]
  | cons c pre' ih =>
    intro post h
    rw [show containsHint (c :: pre') =
      (isPre hintColon (c :: pre') || isPre hintEq (c :: pre') ||
        containsHint pre') from rfl] at h
    rw [Bool.or_eq_false_iff] at h
    obtain ⟨h12, h3⟩ := h
    rw [Bool.or_eq_false_iff] at h12
    obtain ⟨h1, h2⟩ := h12
    have hg : (isPre hintColon (c :: (pre' ++ (hintEq ++ post))) ||
        isPre hintEq (c :: (pre' ++ (hintEq ++ post)))) = false := by
      rw [Bool.or_eq_false_iff]
      constructor
      · rcases hcc : isPre hintColon (c :: (pre' ++ (hintEq ++ post))) with _ | _
        · rfl
        · exfalso
          rw [show c :: (pre' ++ (hintEq ++ post)) =
            (c :: pre') ++ (hintEq ++ post) from rfl] at hcc
          rcases isPre_append_cases (c :: pre') hintColon (hintEq ++ post) hcc with
            hl | ⟨hlen, hdrop⟩
          · exact Bool.false_ne_true (h1.symm.trans hl)
          · have hk1 : 1 ≤ (c :: pre').length := by simp
            have hk2 : (c :: pre').length < 11 := by
              simpa [hintColon] using hlen
            exact Bool.false_ne_true
              (((hintDrop_not_isPre (c :: pre').length hk1 hk2 post).1).symm.trans hdrop)
      · rcases hcc : isPre hintEq (c :: (pre' ++ (hintEq ++ post))) with _ | _
        · rfl
        · exfalso
          rw [show c :: (pre' ++ (hintEq ++ post)) =
            (c :: pre') ++ (hintEq ++ post) from rfl] at hcc
          rcases isPre_append_cases (c :: pre') hintEq (hintEq ++ post) hcc with
            hl | ⟨hlen, hdrop⟩
          · exact Bool.false_ne_true (h2.symm.trans hl)
          · have hk1 : 1 ≤ (c :: pre').length := by simp
            have hk2 : (c :: pre').length < 11 := by
              simpa [hintEq] using hlen
            exact Bool.false_ne_true
              (((hintDrop_not_isPre (c :: pre').length hk1 hk2 post).2).symm.trans hdrop)
    rw [show (c :: pre') ++ (hintEq ++ post) =
      c :: (pre' ++ (hintEq ++ post)) from rfl]
    rw [rewriteHint_nomatch c (pre' ++ (hintEq ++ post)) hg]
    rw [ih post h3]
    rfl

/-- Claim C10 (implicit): the alternate-rendition rewrite replaces every
occurrence of the hint — either separator — by the colon form
`format:jpeg`; in particular an equals-form occurrence `format=webp` is
rewritten to `format:jpeg`, never to the well-formed query parameter
`format=jpeg`. -/
theorem claim_C10 :
    (∀ pre post : List Char, containsHint pre = false →
      rewriteHint (pre ++ (hintEq ++ post)) = pre ++ (hintRepl ++ rewriteHint post)) ∧
    (∀ pre post : List Char, containsHint pre = false →
      rewriteHint (pre ++ (hintEq ++ post)) ≠ pre ++ (hintEqJpeg ++ rewriteHint post)) := by
  constructor
  · exact rewriteHint_replaces
  · intro pre post h heq
    rw [rewriteHint_replaces pre post h] at heq
    have h2 := List.append_cancel_left heq
    have h3 : (hintRepl ++ rewriteHint post).getD 6 ' ' =
        (hintEqJpeg ++ rewriteHint post).getD 6 ' ' :=
      congrArg (fun l => List.getD l 6 ' ') h2
    have e1 : (hintRepl ++ rewriteHint post).getD 6 ' ' = ':' := rfl
    have e2 : (hintEqJpeg ++ rewriteHint post).getD 6 ' ' = '=' := rfl
    rw [e1, e2] at h3
    exact absurd h3 (by decide)

/-- Witness for C10 at a concrete input: the URL `u?format=webp` is
rewritten to `u?format:jpeg` (tail `format=webp`, one-character prefix
`u?` is hint-free... the prefix here is `['u', '?']`). -/
theorem claim_C10_witness :
    rewriteHint (['u', '?'] ++ (hintEq ++ [])) =
      ['u', '?'] ++ (hintRepl ++ rewriteHint []) ∧
    rewriteHint (['u', '?'] ++ (hintEq ++ [])) ≠
      ['u', '?'] ++ (hintEqJpeg ++ rewriteHint []) :=
  ⟨claim_C10.1 ['u', '?'] [] (by decide), claim_C10.2 ['u', '?'] [] (by decide)⟩


theorem blocks_length (f : Nat → List α) (k : Nat)
    (hf : ∀ j, (f j).length = k) : ∀ n, (blocks f n).length = n * k := by
  intro n
  induction n with
  | zero => simp [blocks]
  | succ n ih => simp [blocks, ih, hf, Nat.succ_mul]

theorem blocks_getD (f : Nat → List α) (k : Nat) (d : α)
    (hf : ∀ j, (f j).length = k) :
    ∀ n q r, q < n → r < k → (blocks f n).getD (q * k + r) d = (f q).getD r d := by
  intro n
  induction n with
  | zero => intro q r hq; omega
  | succ n ih =>
    intro q r hq hr
    rcases Nat.lt_succ_iff_lt_or_eq.mp hq with hlt | rfl
    · rw [blocks, List.getD_append]
      · exact ih q r hlt hr
      · rw [blocks_length f k hf n]
        calc q * k + r < q * k + k := by omega
          _ = (q + 1) * k := by ring
          _ ≤ n * k := Nat.mul_le_mul_right k hlt
    · rw [blocks, List.getD_append_right]
      · rw [blocks_length f k hf q]
        congr 1
        omega
      · rw [blocks_length f k hf q]
        omega

theorem bmpHeader_length (width height : Nat) : (bmpHeader width height).length = 54 := by
  simp [bmpHeader, u32le, u16le]

theorem bmpPixel_length (rgba : List Nat) (width y x : Nat) :
    (bmpPixel rgba width y x).length = 3 := by
  unfold bmpPixel
  split <;> simp

theorem bmpRow_length (rgba : List Nat) (width y : Nat) :
    (bmpRow rgba width y).length = width * 3 + bmpRowPad width := by
  simp [bmpRow, blocks_length (fun x => bmpPixel rgba width y x) 3
    (fun x => bmpPixel_length rgba width y x) width, Nat.mul_comm]

theorem writeBmp24_length (rgba : List Nat) (width height : Nat) :
    (writeBmp24 rgba width height).length = bmpFileSize width height := by
  simp [writeBmp24, bmpHeader_length,
    blocks_length (fun i => bmpRow rgba width (height - 1 - i))
      (width * 3 + bmpRowPad width) (fun i => bmpRow_length rgba width _) height,
    bmpFileSize, bmpImageSize]
  ring

theorem getD_replicate_zero : ∀ n j : Nat, (List.replicate n (0 : Nat)).getD j 0 = 0 := by
  intro n
  induction n with
  | zero => intro j; rfl
  | succ n ih =>
    intro j
    rcases j with _ | j
    · rfl
    · rw [List.replicate_succ]
      exact ih j

theorem writeBmp24_pad (rgba : List Nat) (width height y j : Nat)
    (hy : y < height) (hj : j < bmpRowPad width) :
    (writeBmp24 rgba width height).getD
        (54 + (height - 1 - y) * (width * 3 + bmpRowPad width) + (width * 3 + j)) 0 = 0 := by
  unfold writeBmp24
  rw [List.getD_append_right _ _ _ _ (by rw [bmpHeader_length]; omega)]
  rw [bmpHeader_length]
  have hidx : 54 + (height - 1 - y) * (width * 3 + bmpRowPad width) + (width * 3 + j) - 54 =
      (height - 1 - y) * (width * 3 + bmpRowPad width) + (width * 3 + j) := by omega
  rw [hidx]
  rw [blocks_getD (fun i => bmpRow rgba width (height - 1 - i))
    (width * 3 + bmpRowPad width) 0 (fun i => bmpRow_length rgba width _) height
    (height - 1 - y) (width * 3 + j) (by omega) (by omega)]
  unfold bmpRow
  rw [List.getD_append_right _ _ _ _ (by
    rw [blocks_length (fun x => bmpPixel rgba width (height - 1 - (height - 1 - y)) x) 3
      (fun x => bmpPixel_length rgba width _ x) width]
    omega)]
  rw [blocks_length (fun x => bmpPixel rgba width (height - 1 - (height - 1 - y)) x) 3
    (fun x => bmpPixel_length rgba width _ x) width]
  rw [getD_replicate_zero]

theorem writeBmp24_pixel (rgba : List Nat) (width height y x : Nat)
    (hy : y < height) (hx : x < width) (c : Nat) (hc : c < 3) :
    (writeBmp24 rgba width height).getD
        (54 + (height - 1 - y) * (width * 3 + bmpRowPad width) + (x * 3 + c)) 0 =
      (bmpPixel rgba width y x).getD c 0 := by
  unfold writeBmp24
  rw [List.getD_append_right _ _ _ _ (by rw [bmpHeader_length]; omega)]
  rw [bmpHeader_length]
  have hidx : 54 + (height - 1 - y) * (width * 3 + bmpRowPad width) + (x * 3 + c) - 54 =
      (height - 1 - y) * (width * 3 + bmpRowPad width) + (x * 3 + c) := by omega
  rw [hidx]
  rw [blocks_getD (fun i => bmpRow rgba width (height - 1 - i))
    (width * 3 + bmpRowPad width) 0 (fun i => bmpRow_length rgba width _) height
    (height - 1 - y) (x * 3 + c) (by omega) (by omega)]
  have hrow : height - 1 - (height - 1 - y) = y := by omega
  rw [hrow]
  unfold bmpRow
  rw [List.getD_append _ _ _ _ (by
    rw [blocks_length (fun x => bmpPixel rgba width y x) 3
      (fun x => bmpPixel_length rgba width y x) width]
    omega)]
  exact blocks_getD (fun x => bmpPixel rgba width y x) 3 0
    (fun x => bmpPixel_length rgba width y x) width x c hx hc

theorem bmpHeader_explicit (width height : Nat) :
    bmpHeader width height =
      [0x42, 0x4d,
        bmpFileSize width height % 256, bmpFileSize width height / 256 % 256,
        bmpFileSize width height / 65536 % 256,
        bmpFileSize width height / 16777216 % 256,
        0, 0, 0, 0,
        54, 0, 0, 0,
        40, 0, 0, 0,
        width % 256, width / 256 % 256, width / 65536 % 256, width / 16777216 % 256,
        height % 256, height / 256 % 256, height / 65536 % 256,
        height / 16777216 % 256,
        1, 0,
        24, 0,
        0, 0, 0, 0,
        bmpImageSize width height % 256, bmpImageSize width height / 256 % 256,
        bmpImageSize width height / 65536 % 256,
        bmpImageSize width height / 16777216 % 256,
        19, 11, 0, 0,
        19, 11, 0, 0,
        0, 0, 0, 0,
        0, 0, 0, 0] := by
  simp [bmpHeader, u32le, u16le]

/-- Claim C4: for every RGBA buffer and dimensions, `writeBmp24` returns
exactly `14 + 40 + (width*3 + pad) * height` bytes with
`pad = (4 - (width*3 % 4)) % 4`; its first 54 bytes are the explicit header
(signature `B`,`M`, total file size as little-endian u32 at offset 2,
pixel-data offset 54 at offset 10, header size 40, width, height, planes 1,
24 bits per pixel at offset 28, compression 0, image size, 2835 = 0x0B13
pixels/meter twice, 0 colors); rows are emitted bottom-to-top in B,G,R order
zero-padded to a multiple of 4 (the 3 bytes of source pixel `(x,y)` sit at
offset `54 + (height-1-y)*(width*3+pad) + 3*x`), and a source pixel whose
4-byte range extends past the end of the buffer is emitted as fully black
`(0,0,0)` rather than signaling an error. -/
theorem claim_C4 (rgba : List Nat) (width height : Nat) :
    (writeBmp24 rgba width height).length =
        14 + 40 + (width * 3 + (4 - width * 3 % 4) % 4) * height ∧
    (writeBmp24 rgba width height).take 54 =
      [0x42, 0x4d,
        bmpFileSize width height % 256, bmpFileSize width height / 256 % 256,
        bmpFileSize width height / 65536 % 256,
        bmpFileSize width height / 16777216 % 256,
        0, 0, 0, 0,
        54, 0, 0, 0,
        40, 0, 0, 0,
        width % 256, width / 256 % 256, width / 65536 % 256, width / 16777216 % 256,
        height % 256, height / 256 % 256, height / 65536 % 256,
        height / 16777216 % 256,
        1, 0,
        24, 0,
        0, 0, 0, 0,
        bmpImageSize width height % 256, bmpImageSize width height / 256 % 256,
        bmpImageSize width height / 65536 % 256,
        bmpImageSize width height / 16777216 % 256,
        19, 11, 0, 0,
        19, 11, 0, 0,
        0, 0, 0, 0,
        0, 0, 0, 0] ∧
    (∀ y x c, y < height → x < width → c < 3 →
      (writeBmp24 rgba width height).getD
          (54 + (height - 1 - y) * (width * 3 + bmpRowPad width) + (x * 3 + c)) 0 =
        (bmpPixel rgba width y x).getD c 0) ∧
    (∀ y x, rgba.length ≤ (y * width + x) * 4 + 3 →
      bmpPixel rgba width y x = [0, 0, 0]) ∧
    (∀ y x, (y * width + x) * 4 + 3 < rgba.length →
      bmpPixel rgba width y x =
        [rgba.getD ((y * width + x) * 4 + 2) 0, rgba.getD ((y * width + x) * 4 + 1) 0,
          rgba.getD ((y * width + x) * 4) 0]) ∧
    (∀ y j, y < height → j < bmpRowPad width →
      (writeBmp24 rgba width height).getD
          (54 + (height - 1 - y) * (width * 3 + bmpRowPad width) + (width * 3 + j)) 0
        = 0) := by
  refine ⟨?_, ?_, ?_, ?_, ?_, ?_⟩
  · rw [writeBmp24_length]; rfl
  · rw [← bmpHeader_explicit]
    unfold writeBmp24
    rw [show (54 : Nat) = (bmpHeader width height).length from
      (bmpHeader_length width height).symm]
    exact List.take_left _ _
  · intro y x c hy hx hc
    exact writeBmp24_pixel rgba width height y x hy hx c hc
  · intro y x h
    unfold bmpPixel
    rw [if_pos h]
  · intro y x h
    unfold bmpPixel
    rw [if_neg (by omega)]
  · intro y j hy hj
    exact writeBmp24_pad rgba width height y j hy hj

/-- Witness for C4 at a concrete input: a 2×1 image whose buffer is one
byte short, so pixel `(1,0)` is emitted black while pixel `(0,0)` carries
its B,G,R bytes. -/
theorem claim_C4_witness :
    (writeBmp24 [10, 20, 30, 255, 40, 50, 60] 2 1).getD (54 + 0 + 0) 0 = 30 ∧
    (writeBmp24 [10, 20, 30, 255, 40, 50, 60] 2 1).getD (54 + 0 + 3) 0 = 0 ∧
    (writeBmp24 [10, 20, 30, 255, 40, 50, 60] 2 1).length = 62 := by
  have h := claim_C4 [10, 20, 30, 255, 40, 50, 60] 2 1
  refine ⟨?_, ?_, ?_⟩
  · have := h.2.2.1 0 0 0 (by decide) (by decide) (by decide)
    simpa [bmpPixel] using this
  · have := h.2.2.1 0 1 0 (by decide) (by decide) (by decide)
    simpa [bmpPixel, bmpRowPad] using this
  · simpa using h.1

/-- Claim C3: classification equals the byte-signature table: BMP iff bytes
0-1 are `42 4D`; PNG iff the buffer has length ≥ 8 and bytes 0-7 are the PNG
signature, regardless of subsequent bytes; JPEG iff bytes 0-2 are `FF D8 FF`;
WEBP iff bytes 0-3 are RIFF and bytes 8-11 are WEBP; UNKNOWN otherwise, in
particular for every buffer shorter than 2 bytes.  (The model is total over
`List Nat`, reflecting that the code never reads out of bounds.) -/
theorem claim_C3 (bytes : List Nat) :
    (detectMimeFromBytes bytes = mimeBmp ↔
      2 ≤ bytes.length ∧ bytes.getD 0 0 = 0x42 ∧ bytes.getD 1 0 = 0x4d) ∧
    (detectMimeFromBytes bytes = mimePng ↔
      8 ≤ bytes.length ∧ bytes.getD 0 0 = 0x89 ∧ bytes.getD 1 0 = 0x50 ∧
      bytes.getD 2 0 = 0x4e ∧ bytes.getD 3 0 = 0x47 ∧ bytes.getD 4 0 = 0x0d ∧
      bytes.getD 5 0 = 0x0a ∧ bytes.getD 6 0 = 0x1a ∧ bytes.getD 7 0 = 0x0a) ∧
    (detectMimeFromBytes bytes = mimeJpeg ↔
      3 ≤ bytes.length ∧ bytes.getD 0 0 = 0xff ∧ bytes.getD 1 0 = 0xd8 ∧
      bytes.getD 2 0 = 0xff) ∧
    (detectMimeFromBytes bytes = mimeWebp ↔
      12 ≤ bytes.length ∧ bytes.getD 0 0 = 0x52 ∧ bytes.getD 1 0 = 0x49 ∧
      bytes.getD 2 0 = 0x46 ∧ bytes.getD 3 0 = 0x46 ∧ bytes.getD 8 0 = 0x57 ∧
      bytes.getD 9 0 = 0x45 ∧ bytes.getD 10 0 = 0x42 ∧ bytes.getD 11 0 = 0x50) ∧
    (bytes.length < 2 → detectMimeFromBytes bytes = mimeUnknown) := by
  unfold detectMimeFromBytes
  split_ifs with h1 h2 h3 h4 <;>
    refine ⟨?_, ?_, ?_, ?_, ?_⟩ <;>
      simp_all [mimeBmp, mimePng, mimeJpeg, mimeWebp, mimeUnknown] <;>
        omega

theorem blendChannel_bounds (c a : Nat) (hc : c ≤ 255) (ha : a ≤ 255) :
    (0 : ℚ) ≤ (c : ℚ) * ((a : ℚ) / 255) + 255 * (1 - (a : ℚ) / 255) ∧
      (c : ℚ) * ((a : ℚ) / 255) + 255 * (1 - (a : ℚ) / 255) ≤ 255 := by
  have ha0 : (0 : ℚ) ≤ (a : ℚ) / 255 := by positivity
  have ha1 : (a : ℚ) / 255 ≤ 1 := by
    rw [div_le_one (by norm_num)]
    exact_mod_cast ha
  constructor
  · have h1 : (0 : ℚ) ≤ (c : ℚ) * ((a : ℚ) / 255) := by positivity
    have h2 : (0 : ℚ) ≤ 255 * (1 - (a : ℚ) / 255) := by
      have : (0 : ℚ) ≤ 1 - (a : ℚ) / 255 := by linarith
      linarith
    linarith
  · have h1 : (c : ℚ) * ((a : ℚ) / 255) ≤ 255 * ((a : ℚ) / 255) := by
      apply mul_le_mul_of_nonneg_right _ ha0
      exact_mod_cast hc
    linarith

theorem blendChannel_no_truncation (c a : Nat) (hc : c ≤ 255) (ha : a ≤ 255) :
    blendChannel c a =
      (⌊(c : ℚ) * ((a : ℚ) / 255) + 255 * (1 - (a : ℚ) / 255) + 1 / 2⌋).toNat := by
  obtain ⟨h0, h255⟩ := blendChannel_bounds c a hc ha
  unfold blendChannel jsRound toByte
  have hfl0 : (0 : ℤ) ≤ ⌊(c : ℚ) * ((a : ℚ) / 255) + 255 * (1 - (a : ℚ) / 255) + 1 / 2⌋ := by
    apply Int.floor_nonneg.mpr
    linarith
  have hfl255 : ⌊(c : ℚ) * ((a : ℚ) / 255) + 255 * (1 - (a : ℚ) / 255) + 1 / 2⌋ < 256 := by
    apply Int.floor_lt.mpr
    push_cast
    linarith
  rw [Int.emod_eq_of_lt hfl0 hfl255]

theorem blendChannel_transparent (c : Nat) : blendChannel c 0 = 255 := by
  unfold blendChannel jsRound toByte
  norm_num
  rfl

/-- Claim C5: alpha compositing onto white is applied unconditionally after
every successful PNG decode (one whose first frame has the invariant length
`width*height*4`); each output RGB channel equals
`round(src * alpha/255 + 255 * (1 - alpha/255))` (the byte store truncates
nothing since the value lies in `[0,255]`), the output alpha is forced to
255, and a fully transparent pixel yields `(255,255,255,255)` whatever its
underlying RGB. -/
theorem claim_C5 :
    (∀ w h fr, fr.length = w * h * 4 →
      pngStage ⟨w, h, some fr⟩ = (w, h, some (compositeOnWhite fr))) ∧
    (∀ c a : Nat, c ≤ 255 → a ≤ 255 →
      blendChannel c a =
        (⌊(c : ℚ) * ((a : ℚ) / 255) + 255 * (1 - (a : ℚ) / 255) + 1 / 2⌋).toNat) ∧
    (∀ r g b a rest, compositeOnWhite (r :: g :: b :: a :: rest) =
      blendChannel r a :: blendChannel g a :: blendChannel b a :: 255 ::
        compositeOnWhite rest) ∧
    (∀ r g b rest, compositeOnWhite (r :: g :: b :: 0 :: rest) =
      255 :: 255 :: 255 :: 255 :: compositeOnWhite rest) := by
  refine ⟨?_, ?_, ?_, ?_⟩
  · intro w h fr hfr
    simp [pngStage, hfr]
  · intro c a hc ha
    exact blendChannel_no_truncation c a hc ha
  · intro r g b a rest
    rfl
  · intro r g b rest
    rw [show compositeOnWhite (r :: g :: b :: 0 :: rest) =
      blendChannel r 0 :: blendChannel g 0 :: blendChannel b 0 :: 255 ::
        compositeOnWhite rest from rfl]
    rw [blendChannel_transparent, blendChannel_transparent, blendChannel_transparent]

/-- Witness for C5 at a concrete input: a fully transparent pixel with
underlying RGB (10,20,30) composites to opaque white, and a half-opaque
channel rounds per the formula. -/
theorem claim_C5_witness :
    pngStage ⟨1, 1, some [10, 20, 30, 0]⟩ = (1, 1, some [255, 255, 255, 255]) ∧
    blendChannel 10 0 =
      (⌊(10 : ℚ) * ((0 : ℚ) / 255) + 255 * (1 - (0 : ℚ) / 255) + 1 / 2⌋).toNat := by
  constructor
  · rw [claim_C5.1 1 1 [10, 20, 30, 0] (by decide)]
    rw [claim_C5.2.2.2 10 20 30 []]
    rfl
  · exact claim_C5.2.1 10 0 (by decide) (by decide)

theorem floor_natCast_div (a b : Nat) : (⌊(a : ℚ) / (b : ℚ)⌋).toNat = a / b := by
  rw [Int.floor_toNat, Nat.floor_div_nat, Nat.floor_natCast]

theorem log2fuel_bounds : ∀ (fuel n : Nat), 1 ≤ n → n ≤ fuel →
    2 ^ log2fuel fuel n ≤ n ∧ n < 2 ^ (log2fuel fuel n + 1) := by
  intro fuel
  induction fuel with
  | zero => intro n h1 h2; omega
  | succ f ih =>
    intro n h1 h2
    simp only [log2fuel]
    split
    · rename_i h2n
      obtain ⟨hl, hr⟩ := ih (n / 2) (by omega) (by omega)
      have hp1 : 2 ^ (log2fuel f (n / 2) + 1) = 2 ^ log2fuel f (n / 2) * 2 :=
        pow_succ 2 _
      have hp2 : 2 ^ (log2fuel f (n / 2) + 1 + 1) = 2 ^ (log2fuel f (n / 2) + 1) * 2 :=
        pow_succ 2 _
      constructor <;> omega
    · rename_i h2n
      simp only [pow_zero, pow_one]
      omega

theorem nlog2_bounds (n : Nat) (h : 1 ≤ n) :
    2 ^ nlog2 n ≤ n ∧ n < 2 ^ (nlog2 n + 1) :=
  log2fuel_bounds n n h (le_refl n)

theorem qpow2_eq_zpow (k : ℤ) : qpow2 k = (2 : ℚ) ^ k := by
  unfold qpow2
  split
  · rename_i h
    push_cast
    rw [← zpow_natCast (2 : ℚ) k.toNat, Int.toNat_of_nonneg h]
  · rename_i h
    push_cast
    rw [one_div, ← zpow_natCast (2 : ℚ) (-k).toNat,
      Int.toNat_of_nonneg (by omega), ← zpow_neg, neg_neg]

theorem qpow2_pos (k : ℤ) : 0 < qpow2 k := by
  rw [qpow2_eq_zpow]
  positivity

theorem qpow2_add (j k : ℤ) : qpow2 (j + k) = qpow2 j * qpow2 k := by
  rw [qpow2_eq_zpow, qpow2_eq_zpow, qpow2_eq_zpow]
  exact zpow_add₀ (by norm_num) j k

theorem qpow2_natCast (n : ℕ) : qpow2 (n : ℤ) = ((2 ^ n : ℕ) : ℚ) := by
  rw [qpow2_eq_zpow, zpow_natCast]
  push_cast
  rfl

theorem qpow2_zero : qpow2 0 = 1 := by
  rw [qpow2_eq_zpow, zpow_zero]

theorem qpow2_neg53 : qpow2 (-53) = 1 / 2 ^ 53 := by
  unfold qpow2
  rw [if_neg (by omega), show (-(-53 : ℤ)).toNat = 53 from by omega]
  norm_num

theorem pow2le_iff (k : ℤ) (a b : Nat) (hb : 1 ≤ b) :
    pow2le k a b = true ↔ qpow2 k ≤ (a : ℚ) / (b : ℚ) := by
  have hb' : (0 : ℚ) < (b : ℚ) := by exact_mod_cast hb
  unfold pow2le
  split
  · rename_i h
    rw [decide_eq_true_eq, qpow2_eq_zpow]
    rw [show (2 : ℚ) ^ k = (2 : ℚ) ^ k.toNat from by
      rw [← zpow_natCast (2 : ℚ) k.toNat, Int.toNat_of_nonneg h]]
    rw [le_div_iff hb']
    constructor
    · intro hle
      calc (2 : ℚ) ^ k.toNat * (b : ℚ) = ((b * 2 ^ k.toNat : ℕ) : ℚ) := by push_cast; ring
        _ ≤ (a : ℚ) := by exact_mod_cast hle
    · intro hle
      have : ((b * 2 ^ k.toNat : ℕ) : ℚ) ≤ (a : ℚ) := by
        calc ((b * 2 ^ k.toNat : ℕ) : ℚ) = (2 : ℚ) ^ k.toNat * (b : ℚ) := by push_cast; ring
          _ ≤ (a : ℚ) := hle
      exact_mod_cast this
  · rename_i h
    rw [decide_eq_true_eq, qpow2_eq_zpow]
    rw [show (2 : ℚ) ^ k = 1 / (2 : ℚ) ^ (-k).toNat from by
      rw [← zpow_natCast (2 : ℚ) (-k).toNat, Int.toNat_of_nonneg (by omega)]
      rw [one_div, ← zpow_neg, neg_neg]]
    rw [div_le_div_iff (by positivity) hb', one_mul]
    constructor
    · intro hle
      calc (b : ℚ) ≤ ((a * 2 ^ (-k).toNat : ℕ) : ℚ) := by exact_mod_cast hle
        _ = (a : ℚ) * (2 : ℚ) ^ (-k).toNat := by push_cast; ring
    · intro hle
      have : (b : ℚ) ≤ ((a * 2 ^ (-k).toNat : ℕ) : ℚ) := by
        calc (b : ℚ) ≤ (a : ℚ) * (2 : ℚ) ^ (-k).toNat := hle
          _ = ((a * 2 ^ (-k).toNat : ℕ) : ℚ) := by push_cast; ring
      exact_mod_cast this

theorem divExp_le (a b : Nat) (ha : 1 ≤ a) (hb : 1 ≤ b) :
    qpow2 (divExp a b) ≤ (a : ℚ) / (b : ℚ) := by
  unfold divExp
  dsimp only
  split
  · rename_i h
    exact (pow2le_iff _ a b hb).mp h
  · obtain ⟨ha1, _⟩ := nlog2_bounds a ha
    obtain ⟨_, hb2⟩ := nlog2_bounds b hb
    have hA : ((2 ^ nlog2 a : ℕ) : ℚ) ≤ (a : ℚ) := by exact_mod_cast ha1
    have hB : (b : ℚ) ≤ ((2 ^ (nlog2 b + 1) : ℕ) : ℚ) := by
      exact_mod_cast le_of_lt hb2
    have hb' : (0 : ℚ) < (b : ℚ) := by exact_mod_cast hb
    have hkey : ((2 ^ nlog2 a : ℕ) : ℚ) / ((2 ^ (nlog2 b + 1) : ℕ) : ℚ) ≤
        (a : ℚ) / (b : ℚ) := by
      rw [div_le_div_iff (by positivity) hb']
      exact mul_le_mul hA hB (Nat.cast_nonneg b) (Nat.cast_nonneg a)
    have hid : qpow2 ((nlog2 a : ℤ) - (nlog2 b : ℤ) - 1) =
        ((2 ^ nlog2 a : ℕ) : ℚ) / ((2 ^ (nlog2 b + 1) : ℕ) : ℚ) := by
      rw [qpow2_eq_zpow]
      rw [show (nlog2 a : ℤ) - (nlog2 b : ℤ) - 1 =
        (nlog2 a : ℤ) - ((nlog2 b + 1 : ℕ) : ℤ) from by push_cast; ring]
      rw [zpow_sub₀ (by norm_num), zpow_natCast, zpow_natCast]
      push_cast
      rfl
    rw [hid]
    exact hkey

theorem roundHalfEven_ge (n rem den : Nat) : n ≤ roundHalfEven n rem den := by
  unfold roundHalfEven
  split_ifs <;> omega

theorem roundHalfEven_bounds (n rem den : Nat) (hden : 1 ≤ den) (hrem : rem < den) :
    (n : ℚ) + (rem : ℚ) / (den : ℚ) - 1 / 2 ≤ (roundHalfEven n rem den : ℚ) ∧
      (roundHalfEven n rem den : ℚ) ≤ (n : ℚ) + (rem : ℚ) / (den : ℚ) + 1 / 2 := by
  have hden' : (0 : ℚ) < (den : ℚ) := by exact_mod_cast hden
  have hfrac0 : (0 : ℚ) ≤ (rem : ℚ) / (den : ℚ) := by positivity
  have hfrac1 : (rem : ℚ) / (den : ℚ) < 1 := by
    rw [div_lt_one hden']
    exact_mod_cast hrem
  unfold roundHalfEven
  split_ifs with h1 h2 h3
  · have hgt : (1 : ℚ) / 2 < (rem : ℚ) / (den : ℚ) := by
      rw [div_lt_div_iff (by norm_num) hden']
      exact_mod_cast (by omega : 1 * den < rem * 2)
    push_cast
    constructor <;> linarith
  · have hlt : (rem : ℚ) / (den : ℚ) < 1 / 2 := by
      rw [div_lt_div_iff hden' (by norm_num)]
      exact_mod_cast (by omega : rem * 2 < 1 * den)
    constructor <;> linarith
  · have heq : (rem : ℚ) / (den : ℚ) = 1 / 2 := by
      rw [div_eq_div_iff (ne_of_gt hden') (by norm_num : (2 : ℚ) ≠ 0)]
      exact_mod_cast (by omega : rem * 2 = 1 * den)
    constructor <;> linarith
  · have heq : (rem : ℚ) / (den : ℚ) = 1 / 2 := by
      rw [div_eq_div_iff (ne_of_gt hden') (by norm_num : (2 : ℚ) ≠ 0)]
      exact_mod_cast (by omega : rem * 2 = 1 * den)
    push_cast
    constructor <;> linarith

theorem natCast_div_add_mod (A B : Nat) (hB : 1 ≤ B) :
    (A : ℚ) / (B : ℚ) = ((A / B : ℕ) : ℚ) + ((A % B : ℕ) : ℚ) / (B : ℚ) := by
  have hB' : ((B : ℚ)) ≠ 0 := by
    have h0 : (0 : ℚ) < (B : ℚ) := by exact_mod_cast hB
    exact ne_of_gt h0
  field_simp
  exact_mod_cast (Nat.div_add_mod' A B).symm

theorem divScaleDen_pos (a b : Nat) (hb : 1 ≤ b) : 1 ≤ divScaleDen a b := by
  unfold divScaleDen
  split
  · exact hb
  · exact Nat.mul_pos hb (pow_pos (by norm_num) _)

theorem divScale_eq (a b : Nat) (hb : 1 ≤ b) :
    (divScaleNum a b : ℚ) / (divScaleDen a b : ℚ) =
      ((a : ℚ) / (b : ℚ)) * qpow2 (52 - divExp a b) := by
  have hb' : (0 : ℚ) < (b : ℚ) := by exact_mod_cast hb
  have hb0 : (b : ℚ) ≠ 0 := ne_of_gt hb'
  unfold divScaleNum divScaleDen
  by_cases h : (0 : ℤ) ≤ 52 - divExp a b
  · rw [if_pos h, if_pos h]
    rw [show qpow2 (52 - divExp a b) =
        ((2 ^ ((52 : ℤ) - divExp a b).toNat : ℕ) : ℚ) from by
      unfold qpow2; rw [if_pos h]]
    push_cast
    ring
  · rw [if_neg h, if_neg h]
    rw [show qpow2 (52 - divExp a b) =
        1 / ((2 ^ (-((52 : ℤ) - divExp a b)).toNat : ℕ) : ℚ) from by
      unfold qpow2; rw [if_neg h]]
    rw [show (-((52 : ℤ) - divExp a b)).toNat = (divExp a b - 52).toNat from by omega]
    have h2 : ((2 : ℚ)) ^ (divExp a b - 52).toNat ≠ 0 := by positivity
    push_cast
    field_simp

theorem divF_m_ge (a b : Nat) (ha : 1 ≤ a) (hb : 1 ≤ b) : 2 ^ 52 ≤ (divF a b).m := by
  have hD : 1 ≤ divScaleDen a b := divScaleDen_pos a b hb
  have hD' : (0 : ℚ) < (divScaleDen a b : ℚ) := by exact_mod_cast hD
  have hq : ((2 ^ 52 : ℕ) : ℚ) ≤ (divScaleNum a b : ℚ) / (divScaleDen a b : ℚ) := by
    rw [divScale_eq a b hb]
    have h1 := divExp_le a b ha hb
    have h2 : qpow2 (divExp a b) * qpow2 (52 - divExp a b) = ((2 ^ 52 : ℕ) : ℚ) := by
      rw [← qpow2_add]
      rw [show divExp a b + (52 - divExp a b) = ((52 : ℕ) : ℤ) from by push_cast; ring]
      exact qpow2_natCast 52
    calc ((2 ^ 52 : ℕ) : ℚ) = qpow2 (divExp a b) * qpow2 (52 - divExp a b) := h2.symm
      _ ≤ ((a : ℚ) / (b : ℚ)) * qpow2 (52 - divExp a b) :=
          mul_le_mul_of_nonneg_right h1 (le_of_lt (qpow2_pos _))
  have hnat : 2 ^ 52 ≤ divScaleNum a b / divScaleDen a b := by
    rw [Nat.le_div_iff_mul_le (by omega : 0 < divScaleDen a b)]
    have hcast : ((2 ^ 52 * divScaleDen a b : ℕ) : ℚ) ≤ (divScaleNum a b : ℚ) := by
      rw [le_div_iff hD'] at hq
      calc ((2 ^ 52 * divScaleDen a b : ℕ) : ℚ)
          = ((2 ^ 52 : ℕ) : ℚ) * (divScaleDen a b : ℚ) := by push_cast; ring
        _ ≤ (divScaleNum a b : ℚ) := hq
    exact_mod_cast hcast
  calc 2 ^ 52 ≤ divScaleNum a b / divScaleDen a b := hnat
    _ ≤ (divF a b).m := roundHalfEven_ge _ _ _

theorem divF_val_bounds (a b : Nat) (ha : 1 ≤ a) (hb : 1 ≤ b) :
    (a : ℚ) / (b : ℚ) - (a : ℚ) / (b : ℚ) * qpow2 (-53) ≤ (divF a b).val ∧
      (divF a b).val ≤ (a : ℚ) / (b : ℚ) + (a : ℚ) / (b : ℚ) * qpow2 (-53) := by
  have hD : 1 ≤ divScaleDen a b := divScaleDen_pos a b hb
  have hS : (divScaleNum a b : ℚ) / (divScaleDen a b : ℚ) =
      ((divScaleNum a b / divScaleDen a b : ℕ) : ℚ) +
        ((divScaleNum a b % divScaleDen a b : ℕ) : ℚ) / (divScaleDen a b : ℚ) :=
    natCast_div_add_mod _ _ hD
  obtain ⟨hr1, hr2⟩ := roundHalfEven_bounds (divScaleNum a b / divScaleDen a b)
    (divScaleNum a b % divScaleDen a b) (divScaleDen a b) hD
    (Nat.mod_lt _ (by omega))
  have hval : (divF a b).val =
      ((roundHalfEven (divScaleNum a b / divScaleDen a b)
        (divScaleNum a b % divScaleDen a b) (divScaleDen a b) : ℕ) : ℚ) *
        qpow2 (divExp a b - 52) := rfl
  have hpos52 := qpow2_pos (divExp a b - 52)
  have key1 : (divF a b).val ≤
      ((divScaleNum a b : ℚ) / (divScaleDen a b : ℚ) + 1 / 2) *
        qpow2 (divExp a b - 52) := by
    rw [hval]
    apply mul_le_mul_of_nonneg_right _ (le_of_lt hpos52)
    rw [hS]
    exact hr2
  have key2 : ((divScaleNum a b : ℚ) / (divScaleDen a b : ℚ) - 1 / 2) *
      qpow2 (divExp a b - 52) ≤ (divF a b).val := by
    rw [hval]
    apply mul_le_mul_of_nonneg_right _ (le_of_lt hpos52)
    rw [hS]
    exact hr1
  have hSq : (divScaleNum a b : ℚ) / (divScaleDen a b : ℚ) * qpow2 (divExp a b - 52) =
      (a : ℚ) / (b : ℚ) := by
    rw [divScale_eq a b hb, mul_assoc, ← qpow2_add]
    rw [show (52 : ℤ) - divExp a b + (divExp a b - 52) = 0 from by ring]
    rw [qpow2_zero, mul_one]
  have hhalf : (1 : ℚ) / 2 * qpow2 (divExp a b - 52) ≤
      (a : ℚ) / (b : ℚ) * qpow2 (-53) := by
    have h1 : (1 : ℚ) / 2 * qpow2 (divExp a b - 52) =
        qpow2 (divExp a b) * qpow2 (-53) := by
      rw [← qpow2_add]
      rw [show divExp a b + (-53) = (divExp a b - 52) + (-1) from by ring, qpow2_add]
      rw [show qpow2 (-1) = 1 / 2 from by
        unfold qpow2; rw [if_neg (by omega)]; norm_num]
      ring
    rw [h1]
    exact mul_le_mul_of_nonneg_right (divExp_le a b ha hb) (le_of_lt (qpow2_pos _))
  constructor
  · calc (a : ℚ) / (b : ℚ) - (a : ℚ) / (b : ℚ) * qpow2 (-53)
        ≤ (a : ℚ) / (b : ℚ) - 1 / 2 * qpow2 (divExp a b - 52) := by linarith
      _ = ((divScaleNum a b : ℚ) / (divScaleDen a b : ℚ) - 1 / 2) *
            qpow2 (divExp a b - 52) := by rw [sub_mul, hSq]
      _ ≤ (divF a b).val := key2
  · calc (divF a b).val
        ≤ ((divScaleNum a b : ℚ) / (divScaleDen a b : ℚ) + 1 / 2) *
            qpow2 (divExp a b - 52) := key1
      _ = (a : ℚ) / (b : ℚ) + 1 / 2 * qpow2 (divExp a b - 52) := by rw [add_mul, hSq]
      _ ≤ (a : ℚ) / (b : ℚ) + (a : ℚ) / (b : ℚ) * qpow2 (-53) := by linarith

theorem mulShift_le (w : Nat) (x : F64) (h : 2 ^ 52 ≤ w * x.m) :
    2 ^ (mulShift w x + 52) ≤ w * x.m := by
  unfold mulShift
  obtain ⟨h1, h2⟩ := nlog2_bounds (w * x.m) (by omega)
  have h52 : 52 ≤ nlog2 (w * x.m) := by
    by_contra hcon
    push_neg at hcon
    have hle : 2 ^ (nlog2 (w * x.m) + 1) ≤ 2 ^ 52 :=
      Nat.pow_le_pow_right (by norm_num) (by omega)
    omega
  rw [Nat.sub_add_cancel h52]
  exact h1

theorem mulNatF_val_bounds (w : Nat) (x : F64) (hw : 1 ≤ w) (hm : 2 ^ 52 ≤ x.m) :
    (w : ℚ) * x.val - (w : ℚ) * x.val * qpow2 (-53) ≤ (mulNatF w x).val ∧
      (mulNatF w x).val ≤ (w : ℚ) * x.val + (w : ℚ) * x.val * qpow2 (-53) := by
  have hp : 2 ^ 52 ≤ w * x.m := by
    calc 2 ^ 52 ≤ x.m := hm
      _ ≤ w * x.m := Nat.le_mul_of_pos_left _ (by omega)
  have hd : 0 < 2 ^ mulShift w x := pow_pos (by norm_num) _
  have hval : (mulNatF w x).val =
      ((roundHalfEven (w * x.m / 2 ^ mulShift w x) (w * x.m % 2 ^ mulShift w x)
        (2 ^ mulShift w x) : ℕ) : ℚ) * qpow2 (x.e + mulShift w x) := rfl
  obtain ⟨hr1, hr2⟩ := roundHalfEven_bounds (w * x.m / 2 ^ mulShift w x)
    (w * x.m % 2 ^ mulShift w x) (2 ^ mulShift w x) (by omega) (Nat.mod_lt _ hd)
  have hS : ((w * x.m : ℕ) : ℚ) / ((2 ^ mulShift w x : ℕ) : ℚ) =
      ((w * x.m / 2 ^ mulShift w x : ℕ) : ℚ) +
        ((w * x.m % 2 ^ mulShift w x : ℕ) : ℚ) / ((2 ^ mulShift w x : ℕ) : ℚ) :=
    natCast_div_add_mod _ _ (by omega)
  have hposq := qpow2_pos (x.e + mulShift w x)
  have key1 : (mulNatF w x).val ≤
      (((w * x.m : ℕ) : ℚ) / ((2 ^ mulShift w x : ℕ) : ℚ) + 1 / 2) *
        qpow2 (x.e + mulShift w x) := by
    rw [hval]
    apply mul_le_mul_of_nonneg_right _ (le_of_lt hposq)
    rw [hS]
    exact hr2
  have key2 : (((w * x.m : ℕ) : ℚ) / ((2 ^ mulShift w x : ℕ) : ℚ) - 1 / 2) *
      qpow2 (x.e + mulShift w x) ≤ (mulNatF w x).val := by
    rw [hval]
    apply mul_le_mul_of_nonneg_right _ (le_of_lt hposq)
    rw [hS]
    exact hr1
  have hSq : ((w * x.m : ℕ) : ℚ) / ((2 ^ mulShift w x : ℕ) : ℚ) *
      qpow2 (x.e + mulShift w x) = (w : ℚ) * x.val := by
    unfold F64.val
    rw [qpow2_add, ← qpow2_natCast (mulShift w x)]
    have hne : qpow2 ((mulShift w x : ℕ) : ℤ) ≠ 0 := ne_of_gt (qpow2_pos _)
    field_simp
    push_cast
    ring
  have hhalf : (1 : ℚ) / 2 * qpow2 (x.e + mulShift w x) ≤
      (w : ℚ) * x.val * qpow2 (-53) := by
    have hples : ((2 ^ (mulShift w x + 52) : ℕ) : ℚ) ≤ ((w * x.m : ℕ) : ℚ) := by
      exact_mod_cast mulShift_le w x hp
    have hid : (1 : ℚ) / 2 * qpow2 (x.e + mulShift w x) =
        ((2 ^ (mulShift w x + 52) : ℕ) : ℚ) * qpow2 x.e * qpow2 (-53) := by
      rw [qpow2_eq_zpow, qpow2_eq_zpow, qpow2_eq_zpow]
      rw [show ((2 ^ (mulShift w x + 52) : ℕ) : ℚ) =
          (2 : ℚ) ^ ((mulShift w x + 52 : ℕ) : ℤ) from by
        rw [zpow_natCast]; push_cast; ring]
      rw [← zpow_add₀ (by norm_num : (2 : ℚ) ≠ 0),
        ← zpow_add₀ (by norm_num : (2 : ℚ) ≠ 0)]
      rw [show (1 : ℚ) / 2 = (2 : ℚ) ^ (-1 : ℤ) from by
        rw [zpow_neg, zpow_one]; norm_num]
      rw [← zpow_add₀ (by norm_num : (2 : ℚ) ≠ 0)]
      congr 1
      push_cast
      ring
    rw [hid]
    have hwx : (w : ℚ) * x.val = ((w * x.m : ℕ) : ℚ) * qpow2 x.e := by
      unfold F64.val
      push_cast
      ring
    rw [hwx]
    apply mul_le_mul_of_nonneg_right _ (le_of_lt (qpow2_pos _))
    exact mul_le_mul_of_nonneg_right hples (le_of_lt (qpow2_pos _))
  constructor
  · calc (w : ℚ) * x.val - (w : ℚ) * x.val * qpow2 (-53)
        ≤ (w : ℚ) * x.val - 1 / 2 * qpow2 (x.e + mulShift w x) := by linarith
      _ = (((w * x.m : ℕ) : ℚ) / ((2 ^ mulShift w x : ℕ) : ℚ) - 1 / 2) *
            qpow2 (x.e + mulShift w x) := by rw [sub_mul, hSq]
      _ ≤ (mulNatF w x).val := key2
  · calc (mulNatF w x).val
        ≤ (((w * x.m : ℕ) : ℚ) / ((2 ^ mulShift w x : ℕ) : ℚ) + 1 / 2) *
            qpow2 (x.e + mulShift w x) := key1
      _ = (w : ℚ) * x.val + 1 / 2 * qpow2 (x.e + mulShift w x) := by rw [add_mul, hSq]
      _ ≤ (w : ℚ) * x.val + (w : ℚ) * x.val * qpow2 (-53) := by linarith

theorem floorF_bounds (x : F64) :
    ((floorF x : ℕ) : ℚ) ≤ x.val ∧ x.val < ((floorF x : ℕ) : ℚ) + 1 := by
  unfold floorF F64.val
  split
  · rename_i h
    rw [show qpow2 x.e = ((2 ^ x.e.toNat : ℕ) : ℚ) from by
      unfold qpow2; rw [if_pos h]]
    constructor
    · apply le_of_eq
      push_cast
      ring
    · push_cast
      linarith
  · rename_i h
    rw [show qpow2 x.e = 1 / ((2 ^ (-x.e).toNat : ℕ) : ℚ) from by
      unfold qpow2; rw [if_neg h]]
    have hdd : 0 < 2 ^ (-x.e).toNat := pow_pos (by norm_num) _
    have hp : (0 : ℚ) < ((2 ^ (-x.e).toNat : ℕ) : ℚ) := by exact_mod_cast hdd
    constructor
    · rw [mul_one_div, le_div_iff hp]
      have hle : x.m / 2 ^ (-x.e).toNat * 2 ^ (-x.e).toNat ≤ x.m :=
        Nat.div_mul_le_self _ _
      calc ((x.m / 2 ^ (-x.e).toNat : ℕ) : ℚ) * ((2 ^ (-x.e).toNat : ℕ) : ℚ)
          = ((x.m / 2 ^ (-x.e).toNat * 2 ^ (-x.e).toNat : ℕ) : ℚ) := by push_cast; ring
        _ ≤ (x.m : ℚ) := by exact_mod_cast hle
    · rw [mul_one_div, div_lt_iff hp]
      have hq1 := Nat.div_add_mod x.m (2 ^ (-x.e).toNat)
      have hq2 := Nat.mod_lt x.m hdd
      have hlt : x.m < (x.m / 2 ^ (-x.e).toNat + 1) * 2 ^ (-x.e).toNat := by
        have hexp : (x.m / 2 ^ (-x.e).toNat + 1) * 2 ^ (-x.e).toNat =
            2 ^ (-x.e).toNat * (x.m / 2 ^ (-x.e).toNat) + 2 ^ (-x.e).toNat := by ring
        omega
      calc (x.m : ℚ) < (((x.m / 2 ^ (-x.e).toNat + 1) * 2 ^ (-x.e).toNat : ℕ) : ℚ) := by
            exact_mod_cast hlt
        _ = (((x.m / 2 ^ (-x.e).toNat : ℕ) : ℚ) + 1) * ((2 ^ (-x.e).toNat : ℕ) : ℚ) := by
            push_cast; ring

theorem leF_iff (x y : F64) : leF x y = true ↔ x.val ≤ y.val := by
  unfold leF F64.val
  rw [qpow2_eq_zpow, qpow2_eq_zpow]
  split
  · rename_i h
    rw [decide_eq_true_eq]
    have hpos : (0 : ℚ) < (2 : ℚ) ^ x.e := by
      rw [← qpow2_eq_zpow]
      exact qpow2_pos _
    have hsplit : (y.m : ℚ) * (2 : ℚ) ^ y.e =
        (y.m : ℚ) * (2 : ℚ) ^ (y.e - x.e).toNat * (2 : ℚ) ^ x.e := by
      rw [mul_assoc, ← zpow_natCast (2 : ℚ) (y.e - x.e).toNat,
        Int.toNat_of_nonneg (by omega : (0 : ℤ) ≤ y.e - x.e),
        ← zpow_add₀ (by norm_num : (2 : ℚ) ≠ 0),
        show y.e - x.e + x.e = y.e from by omega]
    constructor
    · intro hle
      rw [hsplit]
      apply mul_le_mul_of_nonneg_right _ (le_of_lt hpos)
      calc (x.m : ℚ) ≤ ((y.m * 2 ^ (y.e - x.e).toNat : ℕ) : ℚ) := by exact_mod_cast hle
        _ = (y.m : ℚ) * (2 : ℚ) ^ (y.e - x.e).toNat := by push_cast; ring
    · intro hle
      rw [hsplit] at hle
      have h2 := le_of_mul_le_mul_right hle hpos
      have h3 : ((x.m : ℕ) : ℚ) ≤ ((y.m * 2 ^ (y.e - x.e).toNat : ℕ) : ℚ) := by
        calc ((x.m : ℕ) : ℚ) ≤ (y.m : ℚ) * (2 : ℚ) ^ (y.e - x.e).toNat := h2
          _ = ((y.m * 2 ^ (y.e - x.e).toNat : ℕ) : ℚ) := by push_cast; ring
      exact_mod_cast h3
  · rename_i h
    rw [decide_eq_true_eq]
    have hpos : (0 : ℚ) < (2 : ℚ) ^ y.e := by
      rw [← qpow2_eq_zpow]
      exact qpow2_pos _
    have hsplit : (x.m : ℚ) * (2 : ℚ) ^ x.e =
        (x.m : ℚ) * (2 : ℚ) ^ (x.e - y.e).toNat * (2 : ℚ) ^ y.e := by
      rw [mul_assoc, ← zpow_natCast (2 : ℚ) (x.e - y.e).toNat,
        Int.toNat_of_nonneg (by omega : (0 : ℤ) ≤ x.e - y.e),
        ← zpow_add₀ (by norm_num : (2 : ℚ) ≠ 0),
        show x.e - y.e + y.e = x.e from by omega]
    constructor
    · intro hle
      rw [hsplit]
      apply mul_le_mul_of_nonneg_right _ (le_of_lt hpos)
      calc (x.m : ℚ) * (2 : ℚ) ^ (x.e - y.e).toNat
          = ((x.m * 2 ^ (x.e - y.e).toNat : ℕ) : ℚ) := by push_cast; ring
        _ ≤ (y.m : ℚ) := by exact_mod_cast hle
    · intro hle
      rw [hsplit] at hle
      have h2 := le_of_mul_le_mul_right hle hpos
      have h3 : ((x.m * 2 ^ (x.e - y.e).toNat : ℕ) : ℚ) ≤ ((y.m : ℕ) : ℚ) := by
        calc ((x.m * 2 ^ (x.e - y.e).toNat : ℕ) : ℚ)
            = (x.m : ℚ) * (2 : ℚ) ^ (x.e - y.e).toNat := by push_cast; ring
          _ ≤ (y.m : ℚ) := h2
      exact_mod_cast h3

theorem F64_val_nonneg (x : F64) : 0 ≤ x.val := by
  unfold F64.val
  exact mul_nonneg (Nat.cast_nonneg _) (le_of_lt (qpow2_pos _))

theorem rScale_m_ge (w h m : Nat) (hw : 1 ≤ w) (hh : 1 ≤ h) (hm : 1 ≤ m) :
    2 ^ 52 ≤ (rScale w h m).m := by
  simp only [rScale]
  split
  · exact divF_m_ge m w hm hw
  · exact divF_m_ge m h hm hh

theorem rScale_val_bounds (w h m : Nat) (hw : 1 ≤ w) (hh : 1 ≤ h) (hm : 1 ≤ m) :
    (m : ℚ) / ((Nat.max w h : ℕ) : ℚ) -
        (m : ℚ) / ((Nat.max w h : ℕ) : ℚ) * qpow2 (-53) ≤ (rScale w h m).val ∧
      (rScale w h m).val ≤
        (m : ℚ) / ((Nat.max w h : ℕ) : ℚ) +
          (m : ℚ) / ((Nat.max w h : ℕ) : ℚ) * qpow2 (-53) := by
  have hw' : (0 : ℚ) < (w : ℚ) := by exact_mod_cast hw
  have hh' : (0 : ℚ) < (h : ℚ) := by exact_mod_cast hh
  have hm' : (0 : ℚ) ≤ (m : ℚ) := Nat.cast_nonneg m
  obtain ⟨hx1, hx2⟩ := divF_val_bounds m w hm hw
  obtain ⟨hy1, hy2⟩ := divF_val_bounds m h hm hh
  have heps0 : (0 : ℚ) < qpow2 (-53) := qpow2_pos _
  have heps1 : qpow2 (-53) ≤ 1 := by
    rw [qpow2_neg53]
    norm_num
  have hmaxw : (w : ℚ) ≤ ((Nat.max w h : ℕ) : ℚ) := by
    exact_mod_cast Nat.le_max_left w h
  have hmaxh : (h : ℚ) ≤ ((Nat.max w h : ℕ) : ℚ) := by
    exact_mod_cast Nat.le_max_right w h
  have hmax' : (0 : ℚ) < ((Nat.max w h : ℕ) : ℚ) := lt_of_lt_of_le hw' hmaxw
  have htu : (m : ℚ) / ((Nat.max w h : ℕ) : ℚ) ≤ (m : ℚ) / (w : ℚ) := by
    rw [div_le_div_iff hmax' hw']
    exact mul_le_mul_of_nonneg_left hmaxw hm'
  have htv : (m : ℚ) / ((Nat.max w h : ℕ) : ℚ) ≤ (m : ℚ) / (h : ℚ) := by
    rw [div_le_div_iff hmax' hh']
    exact mul_le_mul_of_nonneg_left hmaxh hm'
  constructor
  · simp only [rScale]
    split
    · have h2 : ((m : ℚ) / ((Nat.max w h : ℕ) : ℚ)) * (1 - qpow2 (-53)) ≤
          ((m : ℚ) / (w : ℚ)) * (1 - qpow2 (-53)) :=
        mul_le_mul_of_nonneg_right htu (by linarith)
      have e1 : ((m : ℚ) / ((Nat.max w h : ℕ) : ℚ)) * (1 - qpow2 (-53)) =
          (m : ℚ) / ((Nat.max w h : ℕ) : ℚ) -
            (m : ℚ) / ((Nat.max w h : ℕ) : ℚ) * qpow2 (-53) := by ring
      have e2 : ((m : ℚ) / (w : ℚ)) * (1 - qpow2 (-53)) =
          (m : ℚ) / (w : ℚ) - (m : ℚ) / (w : ℚ) * qpow2 (-53) := by ring
      linarith
    · have h2 : ((m : ℚ) / ((Nat.max w h : ℕ) : ℚ)) * (1 - qpow2 (-53)) ≤
          ((m : ℚ) / (h : ℚ)) * (1 - qpow2 (-53)) :=
        mul_le_mul_of_nonneg_right htv (by linarith)
      have e1 : ((m : ℚ) / ((Nat.max w h : ℕ) : ℚ)) * (1 - qpow2 (-53)) =
          (m : ℚ) / ((Nat.max w h : ℕ) : ℚ) -
            (m : ℚ) / ((Nat.max w h : ℕ) : ℚ) * qpow2 (-53) := by ring
      have e2 : ((m : ℚ) / (h : ℚ)) * (1 - qpow2 (-53)) =
          (m : ℚ) / (h : ℚ) - (m : ℚ) / (h : ℚ) * qpow2 (-53) := by ring
      linarith
  · rcases le_total w h with hle | hle
    · have hmax : Nat.max w h = h := Nat.max_eq_right hle
      simp only [rScale]
      split
      · rename_i hL
        have hxy := (leF_iff (divF m w) (divF m h)).mp hL
        rw [hmax]
        calc (divF m w).val ≤ (divF m h).val := hxy
          _ ≤ (m : ℚ) / (h : ℚ) + (m : ℚ) / (h : ℚ) * qpow2 (-53) := hy2
      · rw [hmax]
        exact hy2
    · have hmax : Nat.max w h = w := Nat.max_eq_left hle
      simp only [rScale]
      split
      · rw [hmax]
        exact hx2
      · rename_i hL
        have hyx : (divF m h).val ≤ (divF m w).val :=
          le_of_not_le (fun hcon => hL ((leF_iff _ _).mpr hcon))
        rw [hmax]
        calc (divF m h).val ≤ (divF m w).val := hyx
          _ ≤ (m : ℚ) / (w : ℚ) + (m : ℚ) / (w : ℚ) * qpow2 (-53) := hx2

theorem dimFloor_bounds (dim w h m : Nat) (hdim : 1 ≤ dim) (hw : 1 ≤ w) (hh : 1 ≤ h)
    (hm : 1 ≤ m) (hbig : dim * m < 2 ^ 50) :
    dim * m / Nat.max w h ≤ floorF (mulNatF dim (rScale w h m)) + 1 ∧
      floorF (mulNatF dim (rScale w h m)) ≤ dim * m / Nat.max w h + 1 := by
  have hsm := rScale_m_ge w h m hw hh hm
  obtain ⟨hs1, hs2⟩ := rScale_val_bounds w h m hw hh hm
  obtain ⟨hr1, hr2⟩ := mulNatF_val_bounds dim (rScale w h m) hdim hsm
  obtain ⟨hf1, hf2⟩ := floorF_bounds (mulNatF dim (rScale w h m))
  have hmaxpos : 1 ≤ Nat.max w h := le_trans hw (Nat.le_max_left w h)
  have hmax' : (0 : ℚ) < ((Nat.max w h : ℕ) : ℚ) := by exact_mod_cast hmaxpos
  have heps : qpow2 (-53) = 1 / 2 ^ 53 := qpow2_neg53
  have heps0 : (0 : ℚ) < qpow2 (-53) := qpow2_pos _
  have heps1 : qpow2 (-53) ≤ 1 := by
    rw [heps]
    norm_num
  have ht0 : (0 : ℚ) ≤ (m : ℚ) / ((Nat.max w h : ℕ) : ℚ) :=
    div_nonneg (Nat.cast_nonneg m) (le_of_lt hmax')
  have hsv0 : (0 : ℚ) ≤ (rScale w h m).val := F64_val_nonneg _
  have hT : ((dim : ℚ)) * ((m : ℚ) / ((Nat.max w h : ℕ) : ℚ)) =
      ((dim * m : ℕ) : ℚ) / ((Nat.max w h : ℕ) : ℚ) := by
    push_cast
    ring
  have hTbound : ((dim * m : ℕ) : ℚ) / ((Nat.max w h : ℕ) : ℚ) < 2 ^ 50 := by
    have h1 : ((dim * m : ℕ) : ℚ) / ((Nat.max w h : ℕ) : ℚ) ≤ ((dim * m : ℕ) : ℚ) := by
      rw [div_le_iff hmax']
      calc ((dim * m : ℕ) : ℚ) = ((dim * m : ℕ) : ℚ) * 1 := by ring
        _ ≤ ((dim * m : ℕ) : ℚ) * ((Nat.max w h : ℕ) : ℚ) := by
            apply mul_le_mul_of_nonneg_left _ (Nat.cast_nonneg _)
            exact_mod_cast hmaxpos
    have h2 : ((dim * m : ℕ) : ℚ) < 2 ^ 50 := by exact_mod_cast hbig
    linarith
  have hE := natCast_div_add_mod (dim * m) (Nat.max w h) hmaxpos
  have hfrac0 : (0 : ℚ) ≤ ((dim * m % Nat.max w h : ℕ) : ℚ) / ((Nat.max w h : ℕ) : ℚ) :=
    div_nonneg (Nat.cast_nonneg _) (le_of_lt hmax')
  have hfrac1 : ((dim * m % Nat.max w h : ℕ) : ℚ) / ((Nat.max w h : ℕ) : ℚ) < 1 := by
    rw [div_lt_one hmax']
    exact_mod_cast Nat.mod_lt _ (by omega)
  set t : ℚ := (m : ℚ) / ((Nat.max w h : ℕ) : ℚ) with hts
  have hds_up : (dim : ℚ) * (rScale w h m).val ≤
      (dim : ℚ) * t + (dim : ℚ) * t * qpow2 (-53) := by
    have hmul := mul_le_mul_of_nonneg_left hs2 (Nat.cast_nonneg dim : (0 : ℚ) ≤ (dim : ℚ))
    calc (dim : ℚ) * (rScale w h m).val ≤ (dim : ℚ) * (t + t * qpow2 (-53)) := hmul
      _ = (dim : ℚ) * t + (dim : ℚ) * t * qpow2 (-53) := by ring
  have hds_lo : (dim : ℚ) * t - (dim : ℚ) * t * qpow2 (-53) ≤
      (dim : ℚ) * (rScale w h m).val := by
    have hmul := mul_le_mul_of_nonneg_left hs1 (Nat.cast_nonneg dim : (0 : ℚ) ≤ (dim : ℚ))
    calc (dim : ℚ) * t - (dim : ℚ) * t * qpow2 (-53)
        = (dim : ℚ) * (t - t * qpow2 (-53)) := by ring
      _ ≤ (dim : ℚ) * (rScale w h m).val := hmul
  have hdt0 : (0 : ℚ) ≤ (dim : ℚ) * t := mul_nonneg (Nat.cast_nonneg _) ht0
  have hrv_up : (mulNatF dim (rScale w h m)).val ≤
      (dim : ℚ) * t + 3 * ((dim : ℚ) * t) * qpow2 (-53) := by
    have h2 : (dim : ℚ) * (rScale w h m).val * qpow2 (-53) ≤
        ((dim : ℚ) * t + (dim : ℚ) * t * qpow2 (-53)) * qpow2 (-53) :=
      mul_le_mul_of_nonneg_right hds_up (le_of_lt heps0)
    nlinarith [mul_nonneg (mul_nonneg hdt0 (le_of_lt heps0)) (sub_nonneg.mpr heps1)]
  have hrv_lo : (dim : ℚ) * t - 3 * ((dim : ℚ) * t) * qpow2 (-53) ≤
      (mulNatF dim (rScale w h m)).val := by
    have h2 : (dim : ℚ) * (rScale w h m).val * qpow2 (-53) ≤
        ((dim : ℚ) * t + (dim : ℚ) * t * qpow2 (-53)) * qpow2 (-53) :=
      mul_le_mul_of_nonneg_right hds_up (le_of_lt heps0)
    nlinarith [mul_nonneg (mul_nonneg hdt0 (le_of_lt heps0)) (sub_nonneg.mpr heps1)]
  have h3eps : 3 * ((dim : ℚ) * t) * qpow2 (-53) ≤ 1 / 2 := by
    have hTlt : (dim : ℚ) * t < 2 ^ 50 := by
      rw [hT]
      exact hTbound
    rw [heps]
    linarith
  have hup : ((floorF (mulNatF dim (rScale w h m)) : ℕ) : ℚ) <
      ((dim * m / Nat.max w h : ℕ) : ℚ) + 2 := by
    have hTE : (dim : ℚ) * t < ((dim * m / Nat.max w h : ℕ) : ℚ) + 1 := by
      rw [hT, hE]
      linarith
    calc ((floorF (mulNatF dim (rScale w h m)) : ℕ) : ℚ)
        ≤ (mulNatF dim (rScale w h m)).val := hf1
      _ ≤ (dim : ℚ) * t + 3 * ((dim : ℚ) * t) * qpow2 (-53) := hrv_up
      _ ≤ (dim : ℚ) * t + 1 / 2 := by linarith
      _ < ((dim * m / Nat.max w h : ℕ) : ℚ) + 2 := by linarith
  have hlo : ((dim * m / Nat.max w h : ℕ) : ℚ) <
      ((floorF (mulNatF dim (rScale w h m)) : ℕ) : ℚ) + 2 := by
    have hTE2 : ((dim * m / Nat.max w h : ℕ) : ℚ) ≤ (dim : ℚ) * t := by
      rw [hT, hE]
      linarith
    calc ((dim * m / Nat.max w h : ℕ) : ℚ) ≤ (dim : ℚ) * t := hTE2
      _ ≤ (mulNatF dim (rScale w h m)).val + 3 * ((dim : ℚ) * t) * qpow2 (-53) := by
          linarith
      _ ≤ (mulNatF dim (rScale w h m)).val + 1 / 2 := by linarith
      _ < ((floorF (mulNatF dim (rScale w h m)) : ℕ) : ℚ) + 2 := by linarith
  constructor
  · have h2 : dim * m / Nat.max w h < floorF (mulNatF dim (rScale w h m)) + 2 := by
      exact_mod_cast hlo
    omega
  · have h2 : floorF (mulNatF dim (rScale w h m)) < dim * m / Nat.max w h + 2 := by
      exact_mod_cast hup
    omega

theorem resizeDims_fst (w h m : Nat) :
    (resizeDims w h m).1 = Nat.max 1 (floorF (mulNatF w (rScale w h m))) := rfl

theorem resizeDims_snd (w h m : Nat) :
    (resizeDims w h m).2 = Nat.max 1 (floorF (mulNatF h (rScale w h m))) := rfl

theorem nat_max_one (n : Nat) : Nat.max 1 n = if 1 ≤ n then n else 1 := by
  rcases Nat.eq_zero_or_pos n with h | h
  · subst h
    decide
  · rw [if_pos (by omega : 1 ≤ n)]
    exact Nat.max_eq_right h

theorem rzPixel_length (src : List Nat) (srcW srcH dstW dstH y x : Nat) :
    (rzPixel src srcW srcH dstW dstH y x).length = 4 := rfl

theorem resizeNearestRGBA_length (src : List Nat) (srcW srcH dstW dstH : Nat) :
    (resizeNearestRGBA src srcW srcH dstW dstH).length = dstW * dstH * 4 := by
  unfold resizeNearestRGBA
  rw [blocks_length (fun y => blocks (rzPixel src srcW srcH dstW dstH y) dstW)
    (dstW * 4) (fun y => blocks_length (rzPixel src srcW srcH dstW dstH y) 4
      (fun x => rzPixel_length src srcW srcH dstW dstH y x) dstW) dstH]
  ring

theorem resizeNearestRGBA_getD (src : List Nat) (srcW srcH dstW dstH : Nat)
    (x y c : Nat) (hx : x < dstW) (hy : y < dstH) (hc : c < 4) :
    (resizeNearestRGBA src srcW srcH dstW dstH).getD ((y * dstW + x) * 4 + c) 0 =
      src.getD ((y * srcH / dstH * srcW + x * srcW / dstW) * 4 + c) 0 := by
  unfold resizeNearestRGBA
  have hidx : (y * dstW + x) * 4 + c = y * (dstW * 4) + (x * 4 + c) := by ring
  rw [hidx]
  rw [blocks_getD (fun y => blocks (rzPixel src srcW srcH dstW dstH y) dstW)
    (dstW * 4) 0 (fun j => blocks_length (rzPixel src srcW srcH dstW dstH j) 4
      (fun x => rzPixel_length src srcW srcH dstW dstH j x) dstW)
    dstH y (x * 4 + c) hy (by omega)]
  rw [blocks_getD (rzPixel src srcW srcH dstW dstH y) 4 0
    (fun j => rzPixel_length src srcW srcH dstW dstH y j) dstW x c hx hc]
  interval_cases c <;> rfl

/-- Counterexample refuting C6 as stated: the code computes the destination
dimensions in binary64 floating point, not by exact integer arithmetic. At
1568×1568 with `maxSize = 1024`, JS evaluates `1024/1568` to the double
`5882252574524729 * 2^(-53)` (rounded down) and `1568 * (1024/1568)` to
`1023.9999999999999`, so `Math.floor` yields 1023 on both axes — while the
exact formula `floor(dim * maxSize / max(width, height))` of the claim
yields 1024. -/
theorem claim_C6_counterexample :
    resizeDims 1568 1568 1024 = (1023, 1023) ∧
      Nat.max 1 (1568 * 1024 / Nat.max 1568 1568) = 1024 := by
  constructor
  · decide
  · decide

/-- Claim C6 (amended): the resampler is invoked exactly when
`max(width, height) > maxSize`. The destination dimensions are the
binary64 evaluation of `Math.max(1, Math.floor(dim * Math.min(maxSize /
width, maxSize / height)))`; with both products `dim * maxSize` bounded by
`2^50` this stays within one pixel of the exact
`max(1, floor(dim * maxSize / max(width, height)))` in either direction,
but need not equal it (see the counterexample, where rounding undershoots
by one). The example given in the claim does hold exactly: a 100×50 buffer
with `maxSize = 50` yields 50×25. For each destination pixel `(x, y)` the
4 bytes at source pixel `(floor(x*srcW/dstW), floor(y*srcH/dstH))` are
copied verbatim, and the output has length `dstW * dstH * 4`. -/
theorem claim_C6 :
    (∀ width height maxSize : Nat,
      needsResize width height maxSize = true ↔ maxSize < max width height) ∧
    (∀ width height maxSize : Nat, 1 ≤ width → 1 ≤ height → 1 ≤ maxSize →
      width * maxSize < 2 ^ 50 → height * maxSize < 2 ^ 50 →
      (Nat.max 1 (width * maxSize / Nat.max width height) ≤
          (resizeDims width height maxSize).1 + 1 ∧
        (resizeDims width height maxSize).1 ≤
          Nat.max 1 (width * maxSize / Nat.max width height) + 1) ∧
      (Nat.max 1 (height * maxSize / Nat.max width height) ≤
          (resizeDims width height maxSize).2 + 1 ∧
        (resizeDims width height maxSize).2 ≤
          Nat.max 1 (height * maxSize / Nat.max width height) + 1)) ∧
    resizeDims 100 50 50 = (50, 25) ∧
    (∀ src srcW srcH dstW dstH,
      (resizeNearestRGBA src srcW srcH dstW dstH).length = dstW * dstH * 4) ∧
    (∀ src srcW srcH dstW dstH x y c, x < dstW → y < dstH → c < 4 →
      (resizeNearestRGBA src srcW srcH dstW dstH).getD ((y * dstW + x) * 4 + c) 0 =
        src.getD ((y * srcH / dstH * srcW + x * srcW / dstW) * 4 + c) 0) := by
  refine ⟨?_, ?_, ?_, ?_, ?_⟩
  · intro width height maxSize
    simp only [needsResize, Bool.or_eq_true, decide_eq_true_eq]
    omega
  · intro width height maxSize hw hh hm hbw hbh
    obtain ⟨e1, e2⟩ := dimFloor_bounds width width height maxSize hw hw hh hm hbw
    obtain ⟨f1, f2⟩ := dimFloor_bounds height width height maxSize hh hw hh hm hbh
    rw [resizeDims_fst, resizeDims_snd, nat_max_one, nat_max_one, nat_max_one,
      nat_max_one]
    split_ifs <;> omega
  · decide
  · intro src srcW srcH dstW dstH
    exact resizeNearestRGBA_length src srcW srcH dstW dstH
  · intro src srcW srcH dstW dstH x y c hx hy hc
    exact resizeNearestRGBA_getD src srcW srcH dstW dstH x y c hx hy hc

/-- Witness for C6 at concrete inputs: downscaling 100×50 with budget 50
yields 50×25, the trigger fires on 2000×100 at budget 1024, the one-pixel
bound is exercised at 2000×1000 with budget 1024, and a concrete 2×1→1×1
resize copies source pixel (0,0). -/
theorem claim_C6_witness :
    resizeDims 100 50 50 = (50, 25) ∧
    needsResize 2000 100 1024 = true ∧
    Nat.max 1 (2000 * 1024 / Nat.max 2000 1000) ≤ (resizeDims 2000 1000 1024).1 + 1 ∧
    (resizeNearestRGBA [9, 8, 7, 6, 1, 2, 3, 4] 2 1 1 1).getD 0 0 = 9 := by
  refine ⟨claim_C6.2.2.1, ?_, ?_, ?_⟩
  · exact (claim_C6.1 2000 100 1024).mpr (by decide)
  · exact (claim_C6.2.1 2000 1000 1024 (by decide) (by decide) (by decide)
      (by decide) (by decide)).1.1
  · have := claim_C6.2.2.2.2 [9, 8, 7, 6, 1, 2, 3, 4] 2 1 1 1 0 0 0
      (by decide) (by decide) (by decide)
    simpa using this

theorem finishStage_placeholder (env : Env) (maxSize : Nat)
    (hw : env.writeOk = true) :
    finishStage env maxSize 1 1 (some placeholder) =
      Outcome.written (fileScheme ++ outPathName env.now)
        (writeBmp24 placeholder 1 1) := by
  unfold finishStage
  rcases maxSize with _ | m
  · have h2 : resizeDims 1 1 0 = (1, 1) := by decide
    have h3 : resizeNearestRGBA placeholder 1 1 1 1 = placeholder := rfl
    simp [needsResize, h2, h3, hw]
  · have h1 : needsResize 1 1 (m + 1) = false := by
      unfold needsResize
      simp only [Bool.or_eq_false_iff, decide_eq_false_iff_not]
      omega
    simp [h1, hw]

theorem ensureBmp_one (env : Env) (opts : Option Nat) (uri : List Char)
    (h : containsHint uri = false) (f : Nat) :
    ensureBmp env (f + 1) opts uri ≠ none := by
  simp only [ensureBmp]
  repeat' split
  all_goals simp_all

theorem ensureBmp_two (env : Env) (opts : Option Nat) (uri : List Char) (f : Nat) :
    ensureBmp env (f + 2) opts uri ≠ none := by
  show ensureBmp env (f + 1 + 1) opts uri ≠ none
  simp only [ensureBmp]
  repeat' split
  all_goals simp_all [noHint]

/-- Claim C2: the WebP alternate-rendition recursion is bounded to one
retry — with recursion budget 2 the pipeline never exhausts its budget, for
any environment and reference, because a rewritten reference is hint-free
(`noHint`) and so never triggers a second retry — and a WEBP-classified
reference carrying no recognizable format hint terminates with the written
BMP encoding of the fixed 1×1 opaque white placeholder
(RGBA `[255,255,255,255]`), rather than failing. -/
theorem claim_C2 :
    (∀ (env : Env) (opts : Option Nat) (uri : List Char) (fuel : Nat),
      2 ≤ fuel → ensureBmp env fuel opts uri ≠ none) ∧
    (∀ (env : Env) (opts : Option Nat) (uri localPath : List Char)
      (bytes : List Nat) (fuel : Nat),
      toMediaPath env uri = some localPath →
      env.readFile (stripScheme localPath) = some bytes →
      detectMimeFromBytes bytes = mimeWebp →
      containsHint uri = false →
      env.writeOk = true →
      ensureBmp env (fuel + 1) opts uri =
        some (Outcome.written (fileScheme ++ outPathName env.now)
          (writeBmp24 placeholder 1 1))) := by
  constructor
  · intro env opts uri fuel hf
    obtain ⟨f, rfl⟩ : ∃ f, fuel = f + 2 := ⟨fuel - 2, by omega⟩
    exact ensureBmp_two env opts uri f
  · intro env opts uri localPath bytes fuel h1 h2 h3 h4 hw
    simp only [ensureBmp, h1, h2, h3, h4]
    rw [if_neg (show ¬ mimeWebp = mimeBmp from by decide)]
    simp only [if_true, Bool.false_eq_true, if_false]
    exact congrArg some (finishStage_placeholder env _ hw)

/-- Witness for C2 at a concrete input: a WebP file read from `/w` with no
hint in the reference terminates in one step of budget with the placeholder
BMP written at the clock-derived path. -/
theorem claim_C2_witness :
    ensureBmp envW 2 (some 1024) uriW =
      some (Outcome.written (fileScheme ++ outPathName 7)
        (writeBmp24 placeholder 1 1)) :=
  claim_C2.2 envW (some 1024) uriW (fileScheme ++ uriW) webpSigBytes 1
    rfl rfl (by decide) (by decide) rfl

/-- Counterexample to C1 as stated: the reference `/p` resolves, its bytes
are readable and PNG-classified, and the final write would succeed, yet a
structural PNG decode failure (`decodePng = none`, the decoder throw)
reaches the outer catch and the call returns the null result instead of a
fallback path. -/
theorem claim_C1_counterexample :
    toMediaPath envP uriP = some (fileScheme ++ uriP) ∧
    envP.readFile (stripScheme (fileScheme ++ uriP)) = some pngSigJunk ∧
    detectMimeFromBytes pngSigJunk = mimePng ∧
    envP.writeOk = true ∧
    ensureBmp envP 2 (some 1024) uriP = some Outcome.failure := by
  refine ⟨rfl, rfl, by decide, rfl, rfl⟩

/-- Claim C1 (amended): decode failures are absorbed by fallbacks only in
the WEBP and UNKNOWN branches.  A structural decode failure in the PNG or
JPEG branch propagates to the outer catch and yields the null result even
though resolution succeeded; in the UNKNOWN branch, both decoders failing
is absorbed by the 1×1 white placeholder, which is written and returned
whenever the final write succeeds. -/
theorem claim_C1 :
    (∀ (env : Env) (opts : Option Nat) (uri localPath : List Char)
      (bytes : List Nat) (fuel : Nat),
      toMediaPath env uri = some localPath →
      env.readFile (stripScheme localPath) = some bytes →
      detectMimeFromBytes bytes = mimePng →
      env.decodePng bytes = none →
      ensureBmp env (fuel + 1) opts uri = some Outcome.failure) ∧
    (∀ (env : Env) (opts : Option Nat) (uri localPath : List Char)
      (bytes : List Nat) (fuel : Nat),
      toMediaPath env uri = some localPath →
      env.readFile (stripScheme localPath) = some bytes →
      detectMimeFromBytes bytes = mimeJpeg →
      env.decodeJpeg bytes = none →
      ensureBmp env (fuel + 1) opts uri = some Outcome.failure) ∧
    (∀ (env : Env) (opts : Option Nat) (uri localPath : List Char)
      (bytes : List Nat) (fuel : Nat),
      toMediaPath env uri = some localPath →
      env.readFile (stripScheme localPath) = some bytes →
      detectMimeFromBytes bytes = mimeUnknown →
      env.decodePng bytes = none →
      env.decodeJpeg bytes = none →
      env.writeOk = true →
      ensureBmp env (fuel + 1) opts uri =
        some (Outcome.written (fileScheme ++ outPathName env.now)
          (writeBmp24 placeholder 1 1))) := by
  refine ⟨?_, ?_, ?_⟩
  · intro env opts uri localPath bytes fuel h1 h2 h3 hdec
    simp only [ensureBmp, h1, h2, h3, hdec]
    rw [if_neg (show ¬ mimePng = mimeBmp from by decide)]
    rw [if_neg (show ¬ mimePng = mimeWebp from by decide)]
    simp only [if_true]
  · intro env opts uri localPath bytes fuel h1 h2 h3 hdec
    simp only [ensureBmp, h1, h2, h3, hdec]
    rw [if_neg (show ¬ mimeJpeg = mimeBmp from by decide)]
    rw [if_neg (show ¬ mimeJpeg = mimeWebp from by decide)]
    rw [if_neg (show ¬ mimeJpeg = mimePng from by decide)]
    simp only [if_true]
  · intro env opts uri localPath bytes fuel h1 h2 h3 hdp hdj hw
    simp only [ensureBmp, h1, h2, h3, hdp, hdj]
    rw [if_neg (show ¬ mimeUnknown = mimeBmp from by decide)]
    rw [if_neg (show ¬ mimeUnknown = mimeWebp from by decide)]
    rw [if_neg (show ¬ mimeUnknown = mimePng from by decide)]
    rw [if_neg (show ¬ mimeUnknown = mimeJpeg from by decide)]
    exact congrArg some (finishStage_placeholder env _ hw)

/-- Witness for the amended C1 at concrete inputs: the PNG-classified junk
file yields null, while unclassifiable bytes with both decoders failing
yield the written placeholder. -/
theorem claim_C1_witness :
    ensureBmp envP 2 (some 1024) uriP = some Outcome.failure ∧
    ensureBmp env9 2 (some 1024) uriA =
      some (Outcome.written (fileScheme ++ outPathName 5)
        (writeBmp24 placeholder 1 1)) := by
  constructor
  · exact claim_C1.1 envP (some 1024) uriP (fileScheme ++ uriP) pngSigJunk 1
      rfl rfl (by decide) rfl
  · exact claim_C1.2.2 env9 (some 1024) uriA (fileScheme ++ uriA) unknownBytes 1
      rfl rfl (by decide) rfl rfl rfl

theorem toMediaPath_scheme (env : Env) (uri localPath : List Char)
    (h : toMediaPath env uri = some localPath) :
    isPre fileScheme localPath = true := by
  unfold toMediaPath at h
  split_ifs at h
  · obtain rfl := Option.some.inj h
    exact isPre_self_append _ _
  · obtain rfl := Option.some.inj h
    exact isPre_self_append _ _

theorem finishStage_pathOf (env : Env) (maxSize w h : Nat)
    (rgbaOpt : Option (List Nat)) :
    pathOf (finishStage env maxSize w h rgbaOpt) = none ∨
      pathOf (finishStage env maxSize w h rgbaOpt) =
        some (fileScheme ++ outPathName env.now) := by
  unfold finishStage
  rcases hw : env.writeOk with _ | _
  · left
    simp [hw, pathOf]
  · right
    simp [pathOf]

theorem ensureBmp_scheme : ∀ (fuel : Nat) (env : Env) (opts : Option Nat)
    (uri : List Char) (o : Outcome) (p : List Char),
    ensureBmp env fuel opts uri = some o → pathOf o = some p →
    isPre fileScheme p = true := by
  intro fuel
  induction fuel with
  | zero =>
    intro env opts uri o p h _
    exact absurd h (by simp [ensureBmp])
  | succ fuel ih =>
    intro env opts uri o p h hp
    simp only [ensureBmp] at h
    have hfin : ∀ maxSize w hh r, some (finishStage env maxSize w hh r) = some o →
        isPre fileScheme p = true := by
      intro maxSize w hh r heq
      obtain rfl := Option.some.inj heq
      rcases finishStage_pathOf env maxSize w hh r with hf | hf
      · rw [hf] at hp
        exact absurd hp (by simp)
      · rw [hf] at hp
        obtain rfl := Option.some.inj hp
        exact isPre_self_append _ _
    split at h
    · obtain rfl := Option.some.inj h
      exact absurd hp (by simp [pathOf])
    · split at h
      · obtain rfl := Option.some.inj h
        exact absurd hp (by simp [pathOf])
      · split at h
        · -- BMP pass-through: the resolved path carries the scheme
          obtain rfl := Option.some.inj h
          simp only [pathOf] at hp
          obtain rfl := Option.some.inj hp
          exact toMediaPath_scheme env uri _ (by assumption)
        · split at h
          · split at h
            · split at h
              · split at h
                · split at h
                  · exact ih env opts (rewriteHint uri) o p h hp
                  · exact hfin _ _ _ _ h
                · exact hfin _ _ _ _ h
              · exact hfin _ _ _ _ h
            · exact hfin _ _ _ _ h
          · split at h
            · split at h
              · obtain rfl := Option.some.inj h
                exact absurd hp (by simp [pathOf])
              · exact hfin _ _ _ _ h
            · split at h
              · split at h
                · obtain rfl := Option.some.inj h
                  exact absurd hp (by simp [pathOf])
                · exact hfin _ _ _ _ h
              · split at h
                · exact hfin _ _ _ _ h
                · split at h
                  · exact hfin _ _ _ _ h
                  · exact hfin _ _ _ _ h

/-- Counterexample to C7 as stated: the pass-through branch returns the
resolved reference, which carries the `file://` scheme prefix — the value
returned to the caller is a `file://` URI, not a bare path (the caller
strips the scheme itself at App.tsx line 769). -/
theorem claim_C7_counterexample :
    ensureBmp envBmp 1 (some 1024) uriP =
      some (Outcome.passthrough (fileScheme ++ uriP)) ∧
    isPre fileScheme (fileScheme ++ uriP) = true := by
  exact ⟨rfl, by decide⟩

/-- Claim C7 (amended): for every successful normalization — pass-through
or encode-and-write — the value returned to the caller is a `file://`-
prefixed URI over the local absolute path (the scheme prefix is present,
and the caller strips it before handing the path to the inference engine). -/
theorem claim_C7 (fuel : Nat) (env : Env) (opts : Option Nat) (uri : List Char)
    (o : Outcome) (p : List Char) (h : ensureBmp env fuel opts uri = some o)
    (hp : pathOf o = some p) : isPre fileScheme p = true :=
  ensureBmp_scheme fuel env opts uri o p h hp

/-- Witness for the amended C7 at a concrete input: the pass-through run
on a BMP file returns a `file://`-prefixed value. -/
theorem claim_C7_witness :
    isPre fileScheme (fileScheme ++ uriP) = true :=
  claim_C7 1 envBmp (some 1024) uriP (Outcome.passthrough (fileScheme ++ uriP))
    (fileScheme ++ uriP) rfl rfl

/-- Counterexample to C8 as stated: a content-provider URI resolves to the
no-attachment result (`null`) even when every network download would
succeed, and the whole pipeline returns the null outcome on it. -/
theorem claim_C8_counterexample :
    toMediaPath envDl contentUri = none ∧
    ensureBmp envDl 2 (some 1024) contentUri = some Outcome.failure := by
  exact ⟨rfl, rfl⟩

/-- Claim C8 (amended): the resolver accepts remote URLs (downloaded into
the cache with a clock-derived name) and local references (absolute paths
and `file://` URIs, returned as `file://` + path), but a content-provider
URI always resolves to the no-attachment result `null`. -/
theorem claim_C8 :
    (∀ (env : Env) (r : List Char), toMediaPath env (contentPre ++ r) = none) ∧
    (∀ (env : Env) (r : List Char),
      toMediaPath env ('/' :: r) = some (fileScheme ++ ('/' :: r))) ∧
    (∀ (env : Env) (r : List Char),
      toMediaPath env (fileScheme ++ r) = some (fileScheme ++ r)) ∧
    (∀ (env : Env) (r : List Char), env.downloadOk (httpPre ++ r) = true →
      toMediaPath env (httpPre ++ r) =
        some (fileScheme ++ mediaDest env.now (extOf (httpPre ++ r)))) ∧
    (∀ (env : Env) (r : List Char), env.downloadOk (httpsPre ++ r) = true →
      toMediaPath env (httpsPre ++ r) =
        some (fileScheme ++ mediaDest env.now (extOf (httpsPre ++ r)))) := by
  refine ⟨fun env r => rfl, fun env r => rfl, ?_, ?_, ?_⟩
  · intro env r
    show some (fileScheme ++ stripScheme (fileScheme ++ r)) = _
    rw [show stripScheme (fileScheme ++ r) = r from by
      unfold stripScheme
      rw [if_pos (isPre_self_append fileScheme r)]
      rfl]
  · intro env r hd
    show (if env.downloadOk (httpPre ++ r) = true then
        some (fileScheme ++ mediaDest env.now (extOf (httpPre ++ r)))
      else none) = _
    rw [if_pos hd]
  · intro env r hd
    show (if env.downloadOk (httpsPre ++ r) = true then
        some (fileScheme ++ mediaDest env.now (extOf (httpsPre ++ r)))
      else none) = _
    rw [if_pos hd]

/-- Witness for the amended C8 at concrete inputs: a content URI resolves
to `null`, an absolute path resolves to its `file://` URI, and a remote URL
with a succeeding download resolves to the cache destination. -/
theorem claim_C8_witness :
    toMediaPath envDl (contentPre ++ ['x']) = none ∧
    toMediaPath envDl ('/' :: ['p']) = some (fileScheme ++ ('/' :: ['p'])) ∧
    toMediaPath envDl (httpPre ++ ['a']) =
      some (fileScheme ++ mediaDest 3 (extOf (httpPre ++ ['a']))) :=
  ⟨claim_C8.1 envDl ['x'], claim_C8.2.1 envDl ['p'],
    claim_C8.2.2.2.1 envDl ['a'] rfl⟩

theorem natDigitsAux_acc : ∀ (fuel n : Nat) (acc : List Char),
    natDigitsAux fuel n acc = natDigitsAux fuel n [] ++ acc := by
  intro fuel
  induction fuel with
  | zero =>
    intro n acc
    simp [natDigitsAux]
  | succ f ih =>
    intro n acc
    simp only [natDigitsAux]
    split
    · rfl
    · rw [ih (n / 10) (Char.ofNat (48 + n % 10) :: acc),
        ih (n / 10) [Char.ofNat (48 + n % 10)]]
      simp [List.append_assoc]

theorem natDigitsAux_fuel : ∀ (n f1 f2 : Nat), n < f1 → n < f2 →
    natDigitsAux f1 n [] = natDigitsAux f2 n [] := by
  intro n
  induction n using Nat.strong_induction_on with
  | _ n ih =>
    intro f1 f2 h1 h2
    match f1, f2 with
    | a + 1, b + 1 =>
      simp only [natDigitsAux]
      split
      · rfl
      · rw [natDigitsAux_acc a, natDigitsAux_acc b]
        rw [ih (n / 10) (by omega) a b (by omega) (by omega)]

theorem char_digit_toNat (m : Nat) (h : m < 10) :
    (Char.ofNat (48 + m)).toNat = 48 + m := by
  interval_cases m <;> rfl

theorem digitsVal_append_digit (l : List Char) (d : Char) :
    digitsVal (l ++ [d]) = digitsVal l * 10 + (d.toNat - 48) := by
  unfold digitsVal
  rw [List.foldl_append]
  rfl

theorem digitsVal_natDigits : ∀ n : Nat, digitsVal (natDigits n) = n := by
  intro n
  induction n using Nat.strong_induction_on with
  | _ n ih =>
    unfold natDigits
    by_cases h : n < 10
    · rw [show natDigitsAux (n + 1) n [] = [Char.ofNat (48 + n % 10)] from by
        simp only [natDigitsAux]
        rw [if_pos h]]
      unfold digitsVal
      simp only [List.foldl_cons, List.foldl_nil]
      rw [char_digit_toNat (n % 10) (by omega)]
      omega
    · have hstep : natDigitsAux (n + 1) n [] =
          natDigits (n / 10) ++ [Char.ofNat (48 + n % 10)] := by
        simp only [natDigitsAux]
        rw [if_neg h]
        rw [natDigitsAux_acc n (n / 10) [Char.ofNat (48 + n % 10)]]
        unfold natDigits
        rw [natDigitsAux_fuel (n / 10) n (n / 10 + 1) (by omega) (by omega)]
      rw [hstep, digitsVal_append_digit, ih (n / 10) (by omega),
        char_digit_toNat (n % 10) (by omega)]
      omega

theorem natDigits_inj (a b : Nat) (h : natDigits a = natDigits b) : a = b := by
  have hv := digitsVal_natDigits a
  rw [h, digitsVal_natDigits] at hv
  omega

/-- Counterexample to C9 as stated: output names derive from `Date.now()`
alone, not from the reference or a counter, so two invocations with
different references that observe the same clock value write to the same
path — the names are not collision-free across concurrent invocations. -/
theorem claim_C9_counterexample :
    uriA ≠ uriB ∧
    ensureBmp env9 2 (some 1024) uriA =
      some (Outcome.written (fileScheme ++ outPathName 5)
        (writeBmp24 placeholder 1 1)) ∧
    ensureBmp env9 2 (some 1024) uriB =
      some (Outcome.written (fileScheme ++ outPathName 5)
        (writeBmp24 placeholder 1 1)) := by
  exact ⟨by decide, rfl, rfl⟩

/-- Claim C9 (amended): the output file name is derived solely from the
observed `Date.now()` value; names collide exactly when the observed clock
values coincide (millisecond collisions between concurrent invocations are
possible), and invocations observing distinct clock values never collide. -/
theorem claim_C9 (t1 t2 : Nat) : outPathName t1 = outPathName t2 ↔ t1 = t2 := by
  constructor
  · intro h
    unfold outPathName at h
    simp only [List.append_assoc] at h
    have h2 := List.append_cancel_left h
    have h3 := List.append_cancel_left h2
    have h4 := List.append_cancel_right h3
    exact natDigits_inj t1 t2 h4
  · intro h
    rw [h]

/-- Witness for the amended C9 at concrete inputs: distinct clock values
give distinct output paths. -/
theorem claim_C9_witness : outPathName 0 ≠ outPathName 1 := by
  intro h
  exact absurd ((claim_C9 0 1).mp h) (by decide)

/-- Witness for C3 at concrete inputs: the empty buffer (shorter than 2
bytes) classifies as UNKNOWN, and a PNG signature with junk afterwards
classifies as PNG. -/
theorem claim_C3_witness :
    detectMimeFromBytes [] = mimeUnknown ∧
    detectMimeFromBytes pngSigJunk = mimePng := by
  constructor
  · exact (claim_C3 []).2.2.2.2 (by decide)
  · exact ((claim_C3 pngSigJunk).2.1).mpr (by decide)

end EdgeLLM
